import Mathlib

/-!
Verification development for the new logical plan builder
(`plan/newplanbuilder.go`).

The Go source is shallowly embedded:

* machine integers become `Nat`/`Int` (no overflow is relevant here:
  the id counter and column widths stay tiny),
* fallible builders return `Option Plan` (`nil` becomes `none`),
* the mutable builder session (`planBuilder`: id counter, sticky error,
  and the column objects reachable through `*expression.Column`
  pointers) becomes an explicit state record `BState` threaded through
  every builder function; Go pointers to columns become `Nat` indices
  into `BState.cols`, so pointer aliasing and in-place mutation are
  modelled faithfully,
* external collaborators that are not part of this file
  (the expression rewriter `planBuilder.rewrite`, the catalog result
  fields of a table, `expression.Schema.GetIndex`, the AST aggregate
  extractor) are modelled from the spec; each such definition carries a
  doc comment saying so.
-/

namespace NewPlanBuilder

/-- Session-unique operator identifier.  The Go code produces the string
`fmt.Sprintf("%T_%d", p, b.id)`; we model it as the pair
(type name, counter value), which the format is injective on. -/
abbrev OpId := String × Nat

/-- `mysql.TypeNull` (0x06), the null-type placeholder. -/
def mysqlTypeNull : Nat := 6

/-- `mysql.TypeVarString` (0xfd), a concrete text type. -/
def mysqlTypeVarString : Nat := 253

/-- The value of one `expression.Column` object together with the fields
of its `RetType` (`types.FieldType`): producing-operator id (`FromID`,
`none` models the Go zero value `""`), table/database/column name,
declared type code `tp` and display length `flen`, the correlated-outer
flag and the auxiliary flag. -/
structure ColCell where
  fromID : Option OpId := none
  tblName : String := ""
  dbName : String := ""
  colName : String := ""
  tp : Nat := 0
  flen : Int := -1
  correlated : Bool := false
  auxiliary : Bool := false
  deriving DecidableEq, Repr

/-- Modelled from the spec: column identity used by
`expression.Schema.GetIndex` (not part of the embedded file) — a column
reference resolves to a schema column when it names the same producing
operator and the same column name. -/
def sameColRef (d c : ColCell) : Bool :=
  d.fromID == c.fromID && d.colName == c.colName

/-- Search loop of `getIndex`, carrying the current position. -/
def getIndexFrom (s : List ColCell) (c : ColCell) (i : Nat) : Int :=
  match s with
  | [] => -1
  | d :: rest => if sameColRef d c then (i : Int) else getIndexFrom rest c (i + 1)

/-- Modelled from the spec: `expression.Schema.GetIndex` returns the
position of the first schema column the argument resolves to, or `-1`
when the column does not resolve into the schema. -/
def getIndex (s : List ColCell) (c : ColCell) : Int :=
  getIndexFrom s c 0

/-- Membership formulation of `getIndex`: the column resolves into the
schema.  Used on the specification side of claim statements. -/
def resolvesInto (c : ColCell) (s : List ColCell) : Bool :=
  s.any (fun d => sameColRef d c)

/-- `expression.Expression`: a column reference, a scalar function
application, or a constant. -/
inductive Expr where
  | col (c : ColCell)
  | scalarFn (fname : String) (args : List Expr)
  | const (v : Int)
  deriving Repr

/-- The string constant `ast.AndAnd` (lower-case function name of the
boolean AND). -/
def astAndAnd : String := "and"

/-- The string constant `ast.EQ` (lower-case function name of the
equality comparison). -/
def astEQ : String := "eq"

mutual

/-- Embeds `extractColumn` (newplanbuilder.go:106-120): walk an
expression, appending non-correlated column references to `cols` and
correlated ones to `outerCols`. -/
def extractColumn : Expr → List ColCell → List ColCell → (List ColCell × List ColCell)
  | .col v, cols, outerCols =>
      if v.correlated then (cols, outerCols ++ [v]) else (cols ++ [v], outerCols)
  | .scalarFn _ args, cols, outerCols => extractColumnList args cols outerCols
  | .const _, cols, outerCols => (cols, outerCols)

/-- The argument loop of `extractColumn` over a scalar function. -/
def extractColumnList : List Expr → List ColCell → List ColCell → (List ColCell × List ColCell)
  | [], cols, outerCols => (cols, outerCols)
  | a :: rest, cols, outerCols =>
      let p := extractColumn a cols outerCols
      extractColumnList rest p.1 p.2

end

mutual

/-- Embeds `splitCNFItems` (newplanbuilder.go:162-175): flatten the
top-level AND structure of an expression into its conjunct list; a
non-AND expression is a single-conjunct list. -/
def splitCNFItems : Expr → List Expr
  | .scalarFn fname args =>
      if fname = astAndAnd then splitCNFList args
      else [.scalarFn fname args]
  | e => [e]

/-- The argument loop of `splitCNFItems` over the AND arguments. -/
def splitCNFList : List Expr → List Expr
  | [] => []
  | a :: rest => splitCNFItems a ++ splitCNFList rest

end

/-- The first half of the loop body of `extractOnCondition`
(newplanbuilder.go:126-140): when the conjunct is an equality whose two
operands are column references, with one side resolving into the left
schema and the other into the right schema, return the (possibly
operand-swapped) equality condition; otherwise `none` and the conjunct
falls through to the residual classification. -/
def eqBranch (l r : List ColCell) : Expr → Option Expr
  | .scalarFn fname [.col ln, .col rn] =>
      if fname = astEQ then
        if getIndex l ln ≠ -1 ∧ getIndex r rn ≠ -1 then
          some (.scalarFn fname [.col ln, .col rn])
        else if getIndex l rn ≠ -1 ∧ getIndex r ln ≠ -1 then
          some (.scalarFn astEQ [.col rn, .col ln])
        else none
      else none
  | _ => none

/-- Embeds `extractOnCondition` (newplanbuilder.go:122-160).  The Go
function receives the two child plans and consults their schemas through
`GetSchema`; here the two schemas are passed directly.  Returns
`(eqCond, leftCond, rightCond, otherCond)`. -/
def extractOnCondition : List Expr → List ColCell → List ColCell →
    (List Expr × List Expr × List Expr × List Expr)
  | [], _, _ => ([], [], [], [])
  | expr :: rest, l, r =>
      let acc := extractOnCondition rest l r
      match eqBranch l r expr with
      | some canon => (canon :: acc.1, acc.2.1, acc.2.2.1, acc.2.2.2)
      | none =>
          let columns := (extractColumn expr [] []).1
          let allFromRight := columns.all (fun c => getIndex l c == -1)
          let allFromLeft := columns.all (fun c => !(getIndex l c == -1))
          if allFromRight then (acc.1, acc.2.1, expr :: acc.2.2.1, acc.2.2.2)
          else if allFromLeft then (acc.1, expr :: acc.2.1, acc.2.2.1, acc.2.2.2)
          else (acc.1, acc.2.1, acc.2.2.1, expr :: acc.2.2.2)

/-- The non-correlated column references collected from a conjunct (the
`columns` local of the loop body of `extractOnCondition`). -/
def referencedCols (e : Expr) : List ColCell := (extractColumn e [] []).1

/-- A conjunct mentions no outer-scope (correlated) column reference. -/
def noOuterRefs (e : Expr) : Prop := (extractColumn e [] []).2 = []

/-- Every column referenced by the conjunct resolves into exactly one of
the two child schemas (which is guaranteed for a join ON condition that
was rewritten against the concatenated schema, the two children carrying
disjoint producing ids). -/
def colsOneSided (l r : List ColCell) (e : Expr) : Prop :=
  ∀ c ∈ referencedCols e, resolvesInto c l = !resolvesInto c r

/-- Specification-side description (claim C2) of an equality condition:
an equality between exactly one column resolving into the left schema
and one resolving into the right schema, canonicalized by swapping the
operands so that the left operand resolves into the left schema. -/
def specEqCond (l r : List ColCell) : Expr → Option Expr
  | .scalarFn f [.col c1, .col c2] =>
      if f = astEQ ∧ resolvesInto c1 l ∧ resolvesInto c2 r then
        some (.scalarFn f [.col c1, .col c2])
      else if f = astEQ ∧ resolvesInto c1 r ∧ resolvesInto c2 l then
        some (.scalarFn astEQ [.col c2, .col c1])
      else none
  | _ => none

/-- Specification-side description: every referenced column resolves
only into the right schema. -/
def specOnlyRight (l r : List ColCell) (e : Expr) : Bool :=
  (referencedCols e).all (fun c => resolvesInto c r && !resolvesInto c l)

/-- Specification-side description: every referenced column resolves
only into the left schema. -/
def specOnlyLeft (l r : List ColCell) (e : Expr) : Bool :=
  (referencedCols e).all (fun c => resolvesInto c l && !resolvesInto c r)

theorem getIndexFrom_eq_neg_one_iff (s : List ColCell) (c : ColCell) (i : Nat) :
    getIndexFrom s c i = -1 ↔ resolvesInto c s = false := by
  induction s generalizing i with
  | nil => simp [getIndexFrom, resolvesInto]
  | cons d rest ih =>
      rw [show getIndexFrom (d :: rest) c i
            = if sameColRef d c then (i : Int) else getIndexFrom rest c (i + 1) from rfl]
      by_cases hd : sameColRef d c = true
      · rw [if_pos hd]
        have hres : resolvesInto c (d :: rest) = true := by simp [resolvesInto, hd]
        rw [hres]
        simp only [Bool.true_eq_false, iff_false]
        omega
      · rw [if_neg hd]
        have hdf : sameColRef d c = false := Bool.eq_false_iff.mpr hd
        have hres : resolvesInto c (d :: rest) = resolvesInto c rest := by
          simp [resolvesInto, hdf]
        rw [hres]
        exact ih (i + 1)

theorem getIndex_eq_neg_one_iff (s : List ColCell) (c : ColCell) :
    getIndex s c = -1 ↔ resolvesInto c s = false :=
  getIndexFrom_eq_neg_one_iff s c 0

theorem getIndex_beq_neg_one (s : List ColCell) (c : ColCell) :
    (getIndex s c == -1) = !(resolvesInto c s) := by
  cases h : resolvesInto c s with
  | false =>
      have := (getIndex_eq_neg_one_iff s c).mpr h
      simp [this]
  | true =>
      have hne : getIndex s c ≠ -1 := by
        rw [Ne, getIndex_eq_neg_one_iff, h]; simp
      simp [hne]

theorem getIndex_ne_neg_one_iff (s : List ColCell) (c : ColCell) :
    getIndex s c ≠ -1 ↔ resolvesInto c s = true := by
  rw [Ne, getIndex_eq_neg_one_iff]
  cases resolvesInto c s <;> simp

theorem eqBranch_eq_specEqCond (l r : List ColCell) (e : Expr) :
    eqBranch l r e = specEqCond l r e := by
  cases e with
  | col c => rfl
  | const v => rfl
  | scalarFn f args =>
      rcases args with - | ⟨a, - | ⟨b, - | ⟨c, rest⟩⟩⟩
      · rfl
      · cases a <;> rfl
      · cases a with
        | col c1 =>
            cases b with
            | col c2 =>
                simp only [eqBranch, specEqCond]
                by_cases hf : f = astEQ
                · simp only [hf, if_true, true_and]
                  by_cases h1 : resolvesInto c1 l = true <;>
                    by_cases h2 : resolvesInto c2 r = true <;>
                      by_cases h3 : resolvesInto c1 r = true <;>
                        by_cases h4 : resolvesInto c2 l = true <;>
                          simp [getIndex_ne_neg_one_iff, h1, h2, h3, h4]
                · simp [hf]
            | scalarFn g gs => cases c1 <;> rfl
            | const v => cases c1 <;> rfl
        | scalarFn g gs => rfl
        | const v => rfl
      · cases a <;> first | rfl | (cases b <;> rfl)

theorem list_all_congr_on {α : Type} (xs : List α) (p q : α → Bool)
    (h : ∀ x ∈ xs, p x = q x) : xs.all p = xs.all q := by
  induction xs with
  | nil => rfl
  | cons a as ih =>
      simp only [List.all_cons, h a (List.mem_cons_self a as)]
      rw [ih (fun x hx => h x (List.mem_cons_of_mem a hx))]

theorem all_from_right_eq_spec (l r : List ColCell) (e : Expr)
    (hone : colsOneSided l r e) :
    (referencedCols e).all (fun c => getIndex l c == -1) = specOnlyRight l r e := by
  unfold specOnlyRight
  apply list_all_congr_on
  intro c hc
  have h := hone c hc
  rw [getIndex_beq_neg_one, h]
  cases resolvesInto c r <;> simp

theorem all_from_left_eq_spec (l r : List ColCell) (e : Expr)
    (hone : colsOneSided l r e) :
    (referencedCols e).all (fun c => !(getIndex l c == -1)) = specOnlyLeft l r e := by
  unfold specOnlyLeft
  apply list_all_congr_on
  intro c hc
  have h := hone c hc
  rw [getIndex_beq_neg_one, h]
  cases resolvesInto c r <;> simp

instance (e : Expr) : Decidable (noOuterRefs e) := by
  unfold noOuterRefs; infer_instance

instance (l r : List ColCell) (e : Expr) : Decidable (colsOneSided l r e) := by
  unfold colsOneSided; exact List.decidableBAll _ _

/-- C2: for every join ON condition whose conjuncts reference only
columns that resolve into exactly one of the two child schemas (and no
outer-scope columns), `extractOnCondition` classifies each conjunct
exactly as the claim describes: an equality between one column from each
side becomes an equality condition canonicalized so its left operand
resolves into the left schema; otherwise a conjunct whose referenced
columns all resolve only into the right schema becomes a right-only
residual; otherwise all-left becomes a left-only residual; otherwise an
"other" residual. -/
theorem extractOnCondition_matches_spec_classification
    (l r : List ColCell) (conds : List Expr)
    (hlocal : ∀ e ∈ conds, noOuterRefs e)
    (hone : ∀ e ∈ conds, colsOneSided l r e) :
    extractOnCondition conds l r =
      (conds.filterMap (specEqCond l r),
       conds.filter
         (fun e => (specEqCond l r e).isNone && !specOnlyRight l r e && specOnlyLeft l r e),
       conds.filter
         (fun e => (specEqCond l r e).isNone && specOnlyRight l r e),
       conds.filter
         (fun e => (specEqCond l r e).isNone && !specOnlyRight l r e && !specOnlyLeft l r e)) := by
  induction conds with
  | nil => rfl
  | cons e rest ih =>
      have ihr := ih (fun x hx => hlocal x (List.mem_cons_of_mem e hx))
        (fun x hx => hone x (List.mem_cons_of_mem e hx))
      have honee : colsOneSided l r e := hone e (List.mem_cons_self e rest)
      simp only [extractOnCondition, ihr, eqBranch_eq_specEqCond]
      cases hsp : specEqCond l r e with
      | some v =>
          simp [List.filterMap_cons, List.filter_cons, hsp]
      | none =>
          simp only [hsp]
          rw [show (extractColumn e [] []).1 = referencedCols e from rfl]
          rw [all_from_right_eq_spec l r e honee, all_from_left_eq_spec l r e honee]
          by_cases hR : specOnlyRight l r e = true
          · simp [List.filterMap_cons, List.filter_cons, hsp, hR]
          · by_cases hL : specOnlyLeft l r e = true
            · simp [List.filterMap_cons, List.filter_cons, hsp, hR, hL]
            · simp [List.filterMap_cons, List.filter_cons, hsp, hR, hL]

/-- Left child schema of the two-table join example (`t1.a`, `t1.c`). -/
def exT1a : ColCell := { fromID := some ("*plan.NewTableScan", 1), tblName := "t1", colName := "a" }

def exT1c : ColCell := { fromID := some ("*plan.NewTableScan", 1), tblName := "t1", colName := "c" }

def exT2b : ColCell := { fromID := some ("*plan.NewTableScan", 2), tblName := "t2", colName := "b" }

def exT2d : ColCell := { fromID := some ("*plan.NewTableScan", 2), tblName := "t2", colName := "d" }

/-- The conjuncts of `t1.a = t2.b AND t1.c > 1 AND t2.d < 5`. -/
def exOnConds : List Expr :=
  [.scalarFn astEQ [.col exT1a, .col exT2b],
   .scalarFn "gt" [.col exT1c, .const 1],
   .scalarFn "lt" [.col exT2d, .const 5]]

theorem extractOnCondition_matches_spec_classification_witness :
    ((∀ e ∈ exOnConds, noOuterRefs e) ∧ ∀ e ∈ exOnConds, colsOneSided [exT1a, exT1c] [exT2b, exT2d] e) ∧
      extractOnCondition exOnConds [exT1a, exT1c] [exT2b, exT2d] =
        (exOnConds.filterMap (specEqCond [exT1a, exT1c] [exT2b, exT2d]),
         exOnConds.filter
           (fun e => (specEqCond [exT1a, exT1c] [exT2b, exT2d] e).isNone &&
             !specOnlyRight [exT1a, exT1c] [exT2b, exT2d] e &&
             specOnlyLeft [exT1a, exT1c] [exT2b, exT2d] e),
         exOnConds.filter
           (fun e => (specEqCond [exT1a, exT1c] [exT2b, exT2d] e).isNone &&
             specOnlyRight [exT1a, exT1c] [exT2b, exT2d] e),
         exOnConds.filter
           (fun e => (specEqCond [exT1a, exT1c] [exT2b, exT2d] e).isNone &&
             !specOnlyRight [exT1a, exT1c] [exT2b, exT2d] e &&
             !specOnlyLeft [exT1a, exT1c] [exT2b, exT2d] e)) :=
  ⟨⟨by decide, by decide⟩,
   extractOnCondition_matches_spec_classification [exT1a, exT1c] [exT2b, exT2d] exOnConds
     (by decide) (by decide)⟩

theorem extractColumn_empty_eqBranch_none (l r : List ColCell) (e : Expr)
    (h : extractColumn e [] [] = ([], [])) : eqBranch l r e = none := by
  cases e with
  | col c =>
      by_cases hc : c.correlated = true <;> simp [extractColumn, hc] at h
  | const v => rfl
  | scalarFn f args =>
      rcases args with - | ⟨a, - | ⟨b, - | ⟨c, rest⟩⟩⟩
      · rfl
      · cases a <;> rfl
      · cases a with
        | col c1 =>
            cases b with
            | col c2 =>
                exfalso
                by_cases h1 : c1.correlated = true <;>
                  by_cases h2 : c2.correlated = true <;>
                    simp [extractColumn, extractColumnList, h1, h2] at h
            | scalarFn g gs => cases c1 <;> rfl
            | const v => cases c1 <;> rfl
        | scalarFn g gs => rfl
        | const v => rfl
      · cases a <;> first | rfl | (cases b <;> rfl)

/-- C10: a conjunct that references no column at all (for example a
constant predicate) is classified by `extractOnCondition` as a
right-only residual condition — not a left-only or other residual and
not an equality condition — because the all-from-right test vacuously
succeeds and is checked before the all-from-left test. -/
theorem no_column_conjunct_classified_right_only
    (l r : List ColCell) (e : Expr) (rest : List Expr)
    (h : extractColumn e [] [] = ([], [])) :
    extractOnCondition (e :: rest) l r =
      ((extractOnCondition rest l r).1,
       (extractOnCondition rest l r).2.1,
       e :: (extractOnCondition rest l r).2.2.1,
       (extractOnCondition rest l r).2.2.2) := by
  simp [extractOnCondition, extractColumn_empty_eqBranch_none l r e h, h]

theorem no_column_conjunct_classified_right_only_witness :
    extractColumn (.scalarFn astEQ [.const 1, .const 2]) [] [] = ([], []) ∧
      extractOnCondition [.scalarFn astEQ [.const 1, .const 2]] [exT1a, exT1c] [exT2b, exT2d] =
        ([], [], [.scalarFn astEQ [.const 1, .const 2]], []) :=
  ⟨by decide,
   no_column_conjunct_classified_right_only [exT1a, exT1c] [exT2b, exT2d]
     (.scalarFn astEQ [.const 1, .const 2]) [] (by decide)⟩

/-! ## Build session state, column heap and plan operators -/

/-- `ast.Limit`: offset and row count. -/
structure AstLimit where
  offset : Nat
  count : Nat
  deriving DecidableEq, Repr

/-- `ByItems` (newplanbuilder.go:369-373): a sort item. -/
structure ByItems where
  expr : Expr
  desc : Bool
  deriving Repr

/-- One aggregation function value as produced by
`expression.NewAggFunction(aggFunc.F, newArgList, aggFunc.Distinct)`. -/
structure AggregationFunction where
  f : String
  args : List Expr
  distinctAgg : Bool
  deriving Repr

/-- Join kinds of the `Join` operator. -/
inductive JoinTp where
  | innerJoin
  | leftOuterJoin
  | rightOuterJoin
  deriving DecidableEq, Repr

/-- The logical plan operators built by the embedded fragment.  Each
carries the `basePlan` data the Go code actually assigns: the id
(`none` models the Go zero value `""` — the source never calls `allocID`
for `Join`, `Distinct` and `Limit` operators), the correlated flag, the
attached schema as a list of column-heap references, and the attached
children.  The `sort` variant is the pre-existing (old planner) `Sort`
operator, modelled from the spec with its `ExecLimit` slot; all other
variants embed the structs used by the source file. -/
inductive Plan where
  | newTableScan (pid : Option OpId) (tableAsName : Option String) (correlated : Bool)
      (schema : List Nat)
  | join (pid : Option OpId) (joinType : JoinTp) (eqConds leftConds rightConds otherConds : List Expr)
      (correlated : Bool) (schema : List Nat) (children : List Plan)
  | aggregation (pid : Option OpId) (aggFuncs : List AggregationFunction)
      (groupByItems : List Expr) (correlated : Bool) (schema : List Nat) (children : List Plan)
  | union (pid : Option OpId) (correlated : Bool) (schema : List Nat) (children : List Plan)
  | distinct (pid : Option OpId) (correlated : Bool) (schema : List Nat) (children : List Plan)
  | newSort (pid : Option OpId) (byItems : List ByItems) (correlated : Bool)
      (schema : List Nat) (children : List Plan)
  | sort (pid : Option OpId) (execLimit : Option AstLimit) (correlated : Bool)
      (schema : List Nat) (children : List Plan)
  | limit (pid : Option OpId) (offset : Nat) (count : Nat) (correlated : Bool)
      (schema : List Nat) (children : List Plan)
  | trim (pid : Option OpId) (correlated : Bool) (schema : List Nat) (children : List Plan)

/-- `Plan.GetSchema`. -/
def Plan.schema : Plan → List Nat
  | .newTableScan _ _ _ s => s
  | .join _ _ _ _ _ _ _ s _ => s
  | .aggregation _ _ _ _ s _ => s
  | .union _ _ s _ => s
  | .distinct _ _ s _ => s
  | .newSort _ _ _ s _ => s
  | .sort _ _ _ s _ => s
  | .limit _ _ _ _ s _ => s
  | .trim _ _ s _ => s

/-- The operator id (`basePlan.id`). -/
def Plan.pid : Plan → Option OpId
  | .newTableScan i _ _ _ => i
  | .join i _ _ _ _ _ _ _ _ => i
  | .aggregation i _ _ _ _ _ => i
  | .union i _ _ _ => i
  | .distinct i _ _ _ => i
  | .newSort i _ _ _ _ => i
  | .sort i _ _ _ _ => i
  | .limit i _ _ _ _ _ => i
  | .trim i _ _ _ => i

/-- `Plan.IsCorrelated`. -/
def Plan.correlated : Plan → Bool
  | .newTableScan _ _ c _ => c
  | .join _ _ _ _ _ _ c _ _ => c
  | .aggregation _ _ _ c _ _ => c
  | .union _ c _ _ => c
  | .distinct _ c _ _ => c
  | .newSort _ _ c _ _ => c
  | .sort _ _ c _ _ => c
  | .limit _ _ _ c _ _ => c
  | .trim _ c _ _ => c

/-- The attached children (`basePlan.children`, filled by `addChild`). -/
def Plan.children : Plan → List Plan
  | .newTableScan _ _ _ _ => []
  | .join _ _ _ _ _ _ _ _ cs => cs
  | .aggregation _ _ _ _ _ cs => cs
  | .union _ _ _ cs => cs
  | .distinct _ _ _ cs => cs
  | .newSort _ _ _ _ cs => cs
  | .sort _ _ _ _ cs => cs
  | .limit _ _ _ _ _ cs => cs
  | .trim _ _ _ cs => cs

/-- The build session (`planBuilder`): the monotonically increasing id
counter, the sticky error slot, and the heap of `expression.Column`
objects (Go `*expression.Column` pointers become indices into `cols`). -/
structure BState where
  id : Nat := 0
  err : Option String := none
  cols : List ColCell := []
  deriving Repr

/-- Embeds `allocID` (newplanbuilder.go:30-33): increment the counter
and stamp the id with the operator type name and the new counter value
(the Go result string `fmt.Sprintf("%T_%d", p, b.id)`). -/
def allocID (b : BState) (tyName : String) : OpId × BState :=
  ((tyName, b.id + 1), { b with id := b.id + 1 })

/-- The `%T_%d` string of an id, used only to build derived names. -/
def idStr (i : OpId) : String := i.1 ++ "_" ++ toString i.2

/-- Dereference a column pointer. -/
def readCol (b : BState) (ref : Nat) : ColCell := b.cols.getD ref {}

/-- Mutate the column object behind a pointer. -/
def writeCol (b : BState) (ref : Nat) (v : ColCell) : BState :=
  { b with cols := b.cols.set ref v }

/-- Allocate a fresh column object. -/
def allocCol (b : BState) (v : ColCell) : Nat × BState :=
  (b.cols.length, { b with cols := b.cols ++ [v] })

/-- Allocate a list of fresh column objects, in order. -/
def allocCols (b : BState) (vs : List ColCell) : List Nat × BState :=
  match vs with
  | [] => ([], b)
  | v :: rest =>
      let rv := allocCol b v
      let rr := allocCols rv.2 rest
      (rv.1 :: rr.1, rr.2)

/-- Dereference a whole schema. -/
def readCols (b : BState) (refs : List Nat) : List ColCell :=
  refs.map (readCol b)

/-- `expression.Schema.DeepCopy`: allocate a fresh column object per
schema column, copying the current values.  (In Go the copy shares the
`RetType` pointer; that sharing is only observable under type-width
mutation, which the embedded fragment performs solely on a schema that
was *not* deep-copied, so copying the `tp`/`flen` values is faithful
for everything proved here.) -/
def deepCopySchema (b : BState) (refs : List Nat) : List Nat × BState :=
  allocCols b (readCols b refs)

/-! ## AST fragment and the external rewrite collaborator -/

/-- The AST expression nodes the embedded fragment needs: aggregate
function calls (`ast.AggregateFuncExpr`, identified by a `tag` that
models Go pointer identity — textually identical but distinct AST nodes
carry distinct tags), binary comparisons, column name references and
literals. -/
inductive AstExpr where
  | aggCall (tag : Nat) (fname : String) (args : List AstExpr) (distinctAgg : Bool)
  | cmp (op : String) (lhs rhs : AstExpr)
  | colNameRef (tbl name : String)
  | lit (v : Int)
  deriving Repr

/-- A catalog result field of a base table (`ast.ResultField`):
modelled from the spec — the catalog collaborator returns the declared
result fields (name, owning database/table, declared type) in stable
order. -/
structure RField where
  dbName : String := ""
  tblName : String := ""
  colName : String := ""
  tp : Nat := 0
  flen : Int := -1
  deriving DecidableEq, Repr

/-- `ast.TableName`, carrying its catalog-resolved result fields
(`GetResultFields`). -/
structure TableNameNode where
  fields : List RField
  deriving Repr

/-- `ast.Join.Tp`: the join keyword (zero value means plain/cross). -/
inductive AstJoinTp where
  | crossJoin
  | leftJoin
  | rightJoin
  deriving DecidableEq, Repr

mutual

/-- `ast.Join`: left/right table-reference subtrees, the optional ON
condition and the join keyword. -/
inductive AstJoin where
  | mk (ltree : ResultSetNode) (rtree : Option ResultSetNode) (onCond : Option AstExpr)
      (tp : AstJoinTp)

/-- The table-reference shapes the embedded `buildResultSetNode`
dispatches over: a join node, a table source aliasing a base table, or
an unsupported shape (any other `ast` node, which the source rejects
with `ErrUnsupportedType`). -/
inductive ResultSetNode where
  | joinNode (j : AstJoin)
  | tableSource (t : TableNameNode) (asName : String)
  | unsupportedSource

end

/-- Modelled from the spec: the expression-rewrite collaborator
(`planBuilder.rewrite`).  Given the session state, one scalar AST node,
the current best-known plan and an optional aggregate-placeholder
position map, it returns the possibly-extended state, the resolved
expression, the possibly-updated plan, whether an outer-scope reference
was touched, and a failure.  Builder functions are parameterized over
it. -/
def Rewriter : Type :=
  BState → AstExpr → Plan → List (Nat × Nat) → BState × Expr × Plan × Bool × Option String

/-- Embeds `buildNewTableScanPlan` (newplanbuilder.go:703-724): allocate
the scan id, then one schema column per catalog result field, tagged
with the scan id, names and declared type. -/
def buildNewTableScanPlan (b : BState) (tn : TableNameNode) : Plan × BState :=
  let ai := allocID b "*plan.NewTableScan"
  let cells := tn.fields.map fun rf =>
    { fromID := some ai.1, tblName := rf.tblName, dbName := rf.dbName,
      colName := rf.colName, tp := rf.tp, flen := rf.flen : ColCell }
  let ac := allocCols ai.2 cells
  (.newTableScan (some ai.1) none false ac.1, ac.2)

/-- The alias-rebinding loop of `buildResultSetNode`
(newplanbuilder.go:88-94): for every schema column set `TblName` to the
alias and clear `DBName`, mutating the attached column objects in
place. -/
def retagAlias (b : BState) (refs : List Nat) (asName : String) : BState :=
  match refs with
  | [] => b
  | ref :: rest =>
      retagAlias (writeCol b ref { readCol b ref with tblName := asName, dbName := "" }) rest asName

/-- `v.TableAsName = &x.AsName` (newplanbuilder.go:85-87). -/
def Plan.setTableAsName (p : Plan) (asName : String) : Plan :=
  match p with
  | .newTableScan i _ c s => .newTableScan i (some asName) c s
  | _ => p

/-- `join.Tp` to the operator join type (newplanbuilder.go:203-209). -/
def joinTpOf : AstJoinTp → JoinTp
  | .leftJoin => .leftOuterJoin
  | .rightJoin => .rightOuterJoin
  | .crossJoin => .innerJoin

mutual

/-- Embeds `buildResultSetNode` (newplanbuilder.go:64-104) restricted to
the table-reference shapes above: dispatch a join to `buildNewJoin`;
build a base-table source with `buildNewTableScanPlan`, then return an
absent plan if the sticky error is set, record the `TableAsName` and
rebind a non-empty alias onto the schema columns; any other shape
records `ErrUnsupportedType` and returns an absent plan. -/
def buildResultSetNode (rw : Rewriter) (b : BState) (node : ResultSetNode) :
    Option Plan × BState :=
  match node with
  | .joinNode j => buildNewJoin rw b j
  | .tableSource t asName =>
      let pb := buildNewTableScanPlan b t
      if pb.2.err ≠ none then (none, pb.2)
      else
        let p := pb.1.setTableAsName asName
        if asName ≠ "" then (some p, retagAlias pb.2 p.schema asName)
        else (some p, pb.2)
  | .unsupportedSource =>
      (none, { b with err := some "unsupported table source type" })

/-- Embeds `buildNewJoin` (newplanbuilder.go:177-213).  An absent right
side degenerates to the left side.  Otherwise both children are built,
their schemas are deep-copied and concatenated, the optional ON
condition is rewritten against the join (an error is recorded and an
absent plan returned; a reported outer-scope reference records the
error but the build continues), the conjuncts are classified with
`extractOnCondition`, the join kind is chosen from the keyword, and the
children are attached.  `Join` ids are never allocated by the source.
If either child build returned an absent plan the Go code would
dereference a nil interface and panic; that unreachable-under-checked-
error path is modelled as an absent plan with the state unchanged. -/
def buildNewJoin (rw : Rewriter) (b : BState) (j : AstJoin) : Option Plan × BState :=
  match j with
  | .mk ltree rtree onCond tp =>
      match rtree with
      | none => buildResultSetNode rw b ltree
      | some rt =>
          let lb := buildResultSetNode rw b ltree
          let rb := buildResultSetNode rw lb.2 rt
          match lb.1, rb.1 with
          | some leftPlan, some rightPlan =>
              let lc := deepCopySchema rb.2 leftPlan.schema
              let rc := deepCopySchema lc.2 rightPlan.schema
              let newSchema := lc.1 ++ rc.1
              let corr := leftPlan.correlated || rightPlan.correlated
              match onCond with
              | some onE =>
                  let jp0 : Plan := .join none .innerJoin [] [] [] [] corr newSchema []
                  let rwr := rw rc.2 onE jp0 []
                  match rwr.2.2.2.2 with
                  | some e => (none, { rwr.1 with err := some e })
                  | none =>
                      let b2 :=
                        if rwr.2.2.2.1 then
                          { rwr.1 with err := some "On condition does not support subqueries yet." }
                        else rwr.1
                      let onCondition := splitCNFItems rwr.2.1
                      let ec := extractOnCondition onCondition
                        (readCols b2 leftPlan.schema) (readCols b2 rightPlan.schema)
                      (some (.join none (joinTpOf tp) ec.1 ec.2.1 ec.2.2.1 ec.2.2.2 corr
                        newSchema [leftPlan, rightPlan]), b2)
              | none =>
                  (some (.join none (joinTpOf tp) [] [] [] [] corr newSchema
                    [leftPlan, rightPlan]), rc.2)
          | _, _ => (none, rb.2)

end

/-! ## Set operations: union, distinct, sort, limit, trim -/

/-- Embeds `buildNewDistinct` (newplanbuilder.go:305-310): wrap the
input, sharing (not copying) its schema; no id is allocated. -/
def buildNewDistinct (src : Plan) : Plan :=
  .distinct none false src.schema [src]

/-- The item loop of `buildNewSort` (newplanbuilder.go:385-394),
carrying the accumulated `exprs`, the threaded plan and
`sort.correlated`; at the end of the loop the child is attached, the
sort id is allocated and the input schema is deep-copied
(newplanbuilder.go:395-399). -/
def buildNewSortLoop (rw : Rewriter) (b : BState) (p : Plan)
    (byItems : List (AstExpr × Bool)) (acc : List ByItems) (sortCorr : Bool)
    (mapper : List (Nat × Nat)) : Option Plan × BState :=
  match byItems with
  | [] =>
      let ai := allocID b "*plan.NewSort"
      let dc := deepCopySchema ai.2 p.schema
      (some (.newSort (some ai.1) acc sortCorr dc.1 [p]), dc.2)
  | item :: rest =>
      let rwr := rw b item.1 p mapper
      match rwr.2.2.2.2 with
      | some e => (none, { rwr.1 with err := some e })
      | none =>
          buildNewSortLoop rw rwr.1 rwr.2.2.1 rest (acc ++ [⟨rwr.2.1, item.2⟩])
            (sortCorr || rwr.2.2.2.1) mapper

/-- Embeds `buildNewSort` (newplanbuilder.go:382-400): rewrite every by
item against the threaded plan (an error is recorded and an absent plan
returned), accumulate the items' correlation, then attach the child,
allocate the sort id and deep-copy the input schema. -/
def buildNewSort (rw : Rewriter) (b : BState) (p : Plan)
    (byItems : List (AstExpr × Bool)) (mapper : List (Nat × Nat)) : Option Plan × BState :=
  buildNewSortLoop rw b p byItems [] false mapper

/-- Embeds `buildNewLimit` (newplanbuilder.go:402-414): when the input
is the old planner `Sort` operator, fold the limit into its `ExecLimit`
slot and return the sort; otherwise wrap the input in a new `Limit`
operator (no id is allocated) with a deep copy of the input schema. -/
def buildNewLimit (b : BState) (src : Plan) (lim : AstLimit) : Plan × BState :=
  match src with
  | .sort i _ c s cs => (.sort i (some lim) c s cs, b)
  | _ =>
      let dc := deepCopySchema b src.schema
      (.limit none lim.offset lim.count false dc.1 [src], dc.2)

/-- Embeds `buildTrim` (newplanbuilder.go:694-701): allocate the trim
id, attach the input as child, and set the schema to the first `n`
columns of a deep copy of the input schema. -/
def buildTrim (b : BState) (p : Plan) (n : Nat) : Plan × BState :=
  let ai := allocID b "*plan.Trim"
  let dc := deepCopySchema ai.2 p.schema
  (.trim (some ai.1) p.correlated (dc.1.take n) [p], dc.2)

/-- Embeds the final visible-width check of `buildNewSelect`
(newplanbuilder.go:688-691): when the built plan's schema width differs
from the count of user-visible requested fields (`oldLen`, returned by
`buildProjection`), wrap the plan in a `Trim`; otherwise return the
plan unchanged. -/
def buildNewSelectTrim (b : BState) (p : Plan) (oldLen : Nat) : Plan × BState :=
  if oldLen ≠ p.schema.length then buildTrim b p oldLen else (p, b)

/-- The per-position reconcile body of the union branch loop
(newplanbuilder.go:329-348): given the pointer `fref` to
`firstSchema[i]` and the pointer `cref` to the current branch column at
the same position, widen the declared display length to the branch
column's when greater, then adopt the branch column's type when the
current type is unset (0) or the null placeholder.  Reads and writes go
through the column heap, so the aliasing of `firstSchema` with the
first branch's own schema behaves exactly as the Go pointers do. -/
def reconcileOne (b : BState) (fref cref : Nat) : BState :=
  let colV := readCol b cref
  let fsV := readCol b fref
  let b1 := if fsV.flen < colV.flen then writeCol b fref { fsV with flen := colV.flen } else b
  let fsV2 := readCol b1 fref
  if fsV2.tp = 0 ∨ fsV2.tp = mysqlTypeNull then
    writeCol b1 fref { fsV2 with tp := (readCol b1 cref).tp }
  else b1

/-- The position loop over one union branch (`for i, col := range
sel.GetSchema()`), walking `firstSchema` and the branch schema in
lockstep. -/
def reconcileCols (b : BState) : List Nat → List Nat → BState
  | fref :: fs, cref :: cs => reconcileCols (reconcileOne b fref cref) fs cs
  | _, _ => b

/-- The branch loop of `buildNewUnion` (newplanbuilder.go:324-350):
arity check, per-position reconcile.  Returns `false` together with the
recorded `ArityMismatch` error when some branch has a different column
count. -/
def unionBranchLoop (b : BState) (firstSchema : List Nat) : List Plan → Bool × BState
  | [] => (true, b)
  | sel :: rest =>
      if firstSchema.length ≠ sel.schema.length then
        (false, { b with err := some "The used SELECT statements have a different number of columns" })
      else unionBranchLoop (reconcileCols b firstSchema sel.schema) firstSchema rest

/-- The retag loop of `buildNewUnion` (newplanbuilder.go:351-354): every
`firstSchema` column object is mutated in place, its `FromID` set to the
union id and its `DBName` cleared. -/
def retagUnion (b : BState) (refs : List Nat) (uid : OpId) : BState :=
  match refs with
  | [] => b
  | ref :: rest =>
      retagUnion (writeCol b ref { readCol b ref with fromID := some uid, dbName := "" }) rest uid

/-- Embeds `buildNewUnion` (newplanbuilder.go:312-367), given the
already built branch plans `sels` (the source builds them on lines
313-315 through recursive `buildNewSelect` calls, outside the embedded
fragment) and the statement's `Distinct`/`OrderBy`/`Limit` clauses.
`firstSchema` is the Go slice `append(make(...), sels[0].GetSchema()...)`
— a fresh slice sharing the first branch's column objects — so the
reconcile and retag loops mutate the first branch's attached columns in
place.  The union operator receives an allocated id, all branches as
children, and `firstSchema` as its schema. -/
def buildNewUnion (rw : Rewriter) (b : BState) (sels : List Plan) (distinctFlag : Bool)
    (orderBy : Option (List (AstExpr × Bool))) (lim : Option AstLimit) :
    Option Plan × BState :=
  match sels with
  | [] => (none, b)
  | s0 :: _ =>
      let ai := allocID b "*plan.Union"
      let firstSchema := s0.schema
      let lp := unionBranchLoop ai.2 firstSchema sels
      if lp.1 = false then (none, lp.2)
      else
        let b2 := retagUnion lp.2 firstSchema ai.1
        let u : Plan := .union (some ai.1) false firstSchema sels
        let pd : Plan := if distinctFlag then buildNewDistinct u else u
        match orderBy with
        | some items =>
            let sb := buildNewSort rw b2 pd items []
            match sb.1 with
            | none => (none, sb.2)
            | some ps =>
                match lim with
                | some l =>
                    let lb := buildNewLimit sb.2 ps l
                    (some lb.1, lb.2)
                | none => (some ps, sb.2)
        | none =>
            match lim with
            | some l =>
                let lb := buildNewLimit b2 pd l
                (some lb.1, lb.2)
            | none => (some pd, b2)

/-! ## Aggregate extraction and the aggregation builder -/

/-- Go `map[*ast.AggregateFuncExpr]int` insertion: the key is the node
identity (tag); inserting an existing key replaces its value. -/
def mapInsert (m : List (Nat × Nat)) (k v : Nat) : List (Nat × Nat) :=
  if m.any (fun p => p.1 == k) then m.map (fun p => if p.1 == k then (k, v) else p)
  else m ++ [(k, v)]

/-- Go map lookup by node identity. -/
def mapLookup (m : List (Nat × Nat)) (k : Nat) : Option Nat :=
  (m.find? (fun p => p.1 == k)).map (fun p => p.2)

mutual

/-- Modelled from the spec: `ast.AggregateFuncExtractor` — one `Accept`
walk over an expression collects every aggregate-function call
sub-expression it contains, in walk order; the collected nodes key the
position maps by node identity. -/
def collectAggFuncs : AstExpr → List AstExpr
  | .aggCall t f args d => collectAggFuncsList args ++ [.aggCall t f args d]
  | .cmp _ l r => collectAggFuncs l ++ collectAggFuncs r
  | .colNameRef _ _ => []
  | .lit _ => []

/-- The walk over an aggregate call's arguments. -/
def collectAggFuncsList : List AstExpr → List AstExpr
  | [] => []
  | a :: rest => collectAggFuncs a ++ collectAggFuncsList rest

end

/-- The identity tag of an aggregate call node. -/
def aggTag : AstExpr → Nat
  | .aggCall t _ _ _ => t
  | _ => 0

/-- The function symbol of an aggregate call node (`aggFunc.F`). -/
def aggFname : AstExpr → String
  | .aggCall _ f _ _ => f
  | _ => ""

/-- The arguments of an aggregate call node (`aggFunc.Args`). -/
def aggArgsOf : AstExpr → List AstExpr
  | .aggCall _ _ args _ => args
  | _ => []

/-- The DISTINCT flag of an aggregate call node. -/
def aggDistinct : AstExpr → Bool
  | .aggCall _ _ _ d => d
  | _ => false

/-- `ast.SelectField`: the field expression, optional alias, and the
auxiliary (bookkeeping-injection) flag. -/
structure SelectField where
  expr : AstExpr
  asName : String := ""
  auxiliary : Bool := false
  deriving Repr

/-- The part of `ast.SelectStmt` that `extractAggFunc` reads and
mutates: the field list, the HAVING condition and the ORDER BY items. -/
structure SelectStmt where
  fields : List SelectField
  having : Option AstExpr := none
  orderByItems : Option (List (AstExpr × Bool)) := none
  deriving Repr

/-- The mapper-and-append loop run once for the HAVING pass
(newplanbuilder.go:432-438) and once for the ORDER BY pass
(newplanbuilder.go:452-459): for each collected aggregate node, record
`mapper[agg] = len(fields)` and append an auxiliary field
`sel_agg_<len>` whose expression is the aggregate node itself. -/
def appendAggFields (fields : List SelectField) (aggs : List AstExpr)
    (mapper : List (Nat × Nat)) : List SelectField × List (Nat × Nat) :=
  match aggs with
  | [] => (fields, mapper)
  | agg :: rest =>
      let fld : SelectField :=
        { expr := agg, asName := ("sel_agg_" ++ toString fields.length), auxiliary := true }
      appendAggFields (fields ++ [fld]) rest (mapInsert mapper (aggTag agg) fields.length)

/-- The `totalAggMapper` loop (newplanbuilder.go:475-477): `for i, agg
:= range aggList { totalAggMapper[agg] = i }` — a later occurrence of
the same node overwrites the earlier position. -/
def buildTotalMapperFrom (aggs : List AstExpr) (i : Nat) (m : List (Nat × Nat)) :
    List (Nat × Nat) :=
  match aggs with
  | [] => m
  | a :: rest => buildTotalMapperFrom rest (i + 1) (mapInsert m (aggTag a) i)

/-- Embeds `extractAggFunc` (newplanbuilder.go:416-479): collect
aggregates from HAVING, then from the ORDER BY items, appending an
auxiliary field per collected aggregate and recording the separate
HAVING and ORDER BY position maps; then collect from *all* fields of
the (already extended) field list; concatenate the three collections
(SELECT-list pass first, then the HAVING and ORDER BY collections) into
`aggList` and number it into the master map.  The extractor walk cannot
fail in this model, so the Go `ok = false` extraction-failure path is
not taken.  Returns the updated statement, `aggList`, and the HAVING,
ORDER BY and master maps. -/
def extractAggFunc (sel : SelectStmt) :
    SelectStmt × List AstExpr × List (Nat × Nat) × List (Nat × Nat) × List (Nat × Nat) :=
  let havingAggFuncs := match sel.having with | some h => collectAggFuncs h | none => []
  let hp := appendAggFields sel.fields havingAggFuncs []
  let orderByAggFuncs := (sel.orderByItems.getD []).flatMap fun it => collectAggFuncs it.1
  let op := appendAggFields hp.1 orderByAggFuncs []
  let selectAggFuncs := op.1.flatMap fun f => collectAggFuncs f.expr
  let aggList := selectAggFuncs ++ havingAggFuncs ++ orderByAggFuncs
  let totalAggMapper := buildTotalMapperFrom aggList 0 []
  ({ sel with fields := op.1 }, aggList, hp.2, op.2, totalAggMapper)

/-- The inner argument loop of `buildAggregation`
(newplanbuilder.go:43-53): rewrite every argument against the threaded
plan; a rewrite failure records the error (`none` result); otherwise
return the rewritten arguments, the threaded plan and the accumulated
correlation. -/
def rewriteAggArgs (rw : Rewriter) (b : BState) (p : Plan) (args : List AstExpr) :
    BState × Option (List Expr × Plan × Bool) :=
  match args with
  | [] => (b, some ([], p, false))
  | arg :: rest =>
      let rwr := rw b arg p []
      match rwr.2.2.2.2 with
      | some e => ({ rwr.1 with err := some e }, none)
      | none =>
          let rr := rewriteAggArgs rw rwr.1 rwr.2.2.1 rest
          match rr.2 with
          | none => (rr.1, none)
          | some res => (rr.1, some (rwr.2.1 :: res.1, res.2.1, rwr.2.2.2.1 || res.2.2))

/-- The outer loop of `buildAggregation` (newplanbuilder.go:42-57),
collecting one `AggregationFunction` and one output schema column value
(`FromID` the aggregation id, name `<id>_col_<i>`) per entry of
`aggFuncList`. -/
def buildAggLoop (rw : Rewriter) (b : BState) (p : Plan) (aggFuncList : List AstExpr)
    (i : Nat) (aid : OpId) :
    BState × Option (List AggregationFunction × List ColCell × Plan × Bool) :=
  match aggFuncList with
  | [] => (b, some ([], [], p, false))
  | aggFunc :: rest =>
      let ra := rewriteAggArgs rw b p (aggArgsOf aggFunc)
      match ra.2 with
      | none => (ra.1, none)
      | some res =>
          let rr := buildAggLoop rw ra.1 res.2.1 rest (i + 1) aid
          match rr.2 with
          | none => (rr.1, none)
          | some acc =>
              (rr.1, some (⟨aggFname aggFunc, res.1, aggDistinct aggFunc⟩ :: acc.1,
                { fromID := some aid,
                  colName := idStr aid ++ "_col_" ++ toString i : ColCell } :: acc.2.1,
                acc.2.2.1, res.2.2 || acc.2.2.2))

/-- Embeds `buildAggregation` (newplanbuilder.go:35-62): allocate the
aggregation id, attach the input plan as the child, run the per-
aggregate loop (one output schema column per `aggFuncList` entry, never
user-facing), and set the group-by items and accumulated correlation.
The schema column objects are allocated after the loop; the Go code
creates them during it, which only affects heap numbering relative to
rewriter allocations, not any value. -/
def buildAggregation (rw : Rewriter) (b : BState) (p : Plan) (aggFuncList : List AstExpr)
    (gby : List Expr) (correlated : Bool) : Option Plan × BState :=
  let ai := allocID b "*plan.Aggregation"
  let lp := buildAggLoop rw ai.2 p aggFuncList 0 ai.1
  match lp.2 with
  | none => (none, lp.1)
  | some res =>
      let ac := allocCols lp.1 res.2.1
      (some (.aggregation (some ai.1) res.1 gby
        (p.correlated || correlated || res.2.2.2) ac.1 [p]), ac.2)

/-! ## Heap lemmas -/

/-- A trivial rewriter used to evaluate the builders on concrete
statements that contain no sub-selects or outer references: it resolves
any expression to a constant and leaves the state and plan untouched. -/
def rwTrivial : Rewriter := fun b _ p _ => (b, .const 0, p, false, none)

theorem readCol_writeCol_ne (b : BState) (r x : Nat) (v : ColCell) (h : r ≠ x) :
    readCol (writeCol b r v) x = readCol b x := by
  simp [readCol, writeCol, List.getD_eq_getElem?_getD, List.getElem?_set_ne h]

theorem readCol_writeCol_eq (b : BState) (r : Nat) (v : ColCell) (h : r < b.cols.length) :
    readCol (writeCol b r v) r = v := by
  simp [readCol, writeCol, List.getD_eq_getElem?_getD, List.getElem?_set_eq h]

theorem readCol_writeCol_self (b : BState) (r x : Nat) :
    readCol (writeCol b r (readCol b r)) x = readCol b x := by
  by_cases hr : r < b.cols.length
  · by_cases hx : r = x
    · subst hx; rw [readCol_writeCol_eq b r _ hr]
    · exact readCol_writeCol_ne b r x _ hx
  · have hset : b.cols.set r (readCol b r) = b.cols :=
      List.set_eq_of_length_le (le_of_not_lt hr)
    show readCol { b with cols := b.cols.set r (readCol b r) } x = readCol b x
    rw [hset]

theorem writeCol_cols_length (b : BState) (r : Nat) (v : ColCell) :
    (writeCol b r v).cols.length = b.cols.length := by
  simp [writeCol]

theorem reconcileOne_meta (b : BState) (f c : Nat) :
    (reconcileOne b f c).id = b.id ∧ (reconcileOne b f c).err = b.err ∧
      (reconcileOne b f c).cols.length = b.cols.length := by
  simp only [reconcileOne]
  split_ifs <;> simp [writeCol]

theorem readCol_reconcileOne_ne (b : BState) (f c x : Nat) (h : f ≠ x) :
    readCol (reconcileOne b f c) x = readCol b x := by
  simp only [reconcileOne]
  split_ifs <;> simp only [readCol_writeCol_ne _ _ _ _ h]

theorem readCol_reconcileOne_self (b : BState) (r x : Nat) :
    readCol (reconcileOne b r r) x = readCol b x := by
  simp only [reconcileOne]
  rw [if_neg (lt_irrefl (readCol b r).flen)]
  split_ifs with h
  · have he : ({ readCol b r with tp := (readCol b r).tp } : ColCell) = readCol b r := rfl
    rw [he, readCol_writeCol_self]
  · rfl

/-- The value-level effect of `reconcileOne` on the first-schema column:
widen `flen`, then adopt `tp` when unset or the null placeholder. -/
def combineCell (a c : ColCell) : ColCell :=
  let a1 := if a.flen < c.flen then { a with flen := c.flen } else a
  if a1.tp = 0 ∨ a1.tp = mysqlTypeNull then { a1 with tp := c.tp } else a1

theorem readCol_reconcileOne_eq (b : BState) (f c : Nat) (hne : f ≠ c)
    (hv : f < b.cols.length) :
    readCol (reconcileOne b f c) f = combineCell (readCol b f) (readCol b c) := by
  by_cases h1 : (readCol b f).flen < (readCol b c).flen
  · have e1 : readCol (writeCol b f { readCol b f with flen := (readCol b c).flen }) f
        = { readCol b f with flen := (readCol b c).flen } := readCol_writeCol_eq _ _ _ hv
    have e2 : readCol (writeCol b f { readCol b f with flen := (readCol b c).flen }) c
        = readCol b c := readCol_writeCol_ne _ _ _ _ hne
    simp only [reconcileOne, combineCell, if_pos h1, e1, e2]
    split_ifs with h2
    · exact readCol_writeCol_eq _ _ _ (by rw [writeCol_cols_length]; exact hv)
    · exact e1
  · simp only [reconcileOne, combineCell, if_neg h1]
    split_ifs with h2
    · exact readCol_writeCol_eq _ _ _ hv
    · rfl

theorem getD_mem_of_lt {α : Type} (l : List α) (k : Nat) (d : α) (h : k < l.length) :
    l.getD k d ∈ l := by
  induction l generalizing k with
  | nil => simp at h
  | cons a as ih =>
      cases k with
      | zero => exact List.mem_cons_self a as
      | succ k => exact List.mem_cons_of_mem a (ih k (by simpa using h))

theorem reconcileCols_meta (b : BState) (fs cs : List Nat) :
    (reconcileCols b fs cs).id = b.id ∧ (reconcileCols b fs cs).err = b.err ∧
      (reconcileCols b fs cs).cols.length = b.cols.length := by
  induction fs generalizing b cs with
  | nil => cases cs <;> exact ⟨rfl, rfl, rfl⟩
  | cons f fs ih =>
      cases cs with
      | nil => exact ⟨rfl, rfl, rfl⟩
      | cons c cs =>
          have hm := reconcileOne_meta b f c
          have hr := ih (reconcileOne b f c) cs
          exact ⟨hr.1.trans hm.1, hr.2.1.trans hm.2.1, hr.2.2.trans hm.2.2⟩

theorem readCol_reconcileCols_ne (b : BState) (fs cs : List Nat) (x : Nat) (h : x ∉ fs) :
    readCol (reconcileCols b fs cs) x = readCol b x := by
  induction fs generalizing b cs with
  | nil => cases cs <;> rfl
  | cons f fs ih =>
      cases cs with
      | nil => rfl
      | cons c cs =>
          have hx : f ≠ x := fun he => h (he ▸ List.mem_cons_self f fs)
          show readCol (reconcileCols (reconcileOne b f c) fs cs) x = readCol b x
          rw [ih _ _ (fun hm => h (List.mem_cons_of_mem f hm)),
            readCol_reconcileOne_ne _ _ _ _ hx]

theorem readCol_reconcileCols_self (b : BState) (fs : List Nat) (x : Nat) :
    readCol (reconcileCols b fs fs) x = readCol b x := by
  induction fs generalizing b with
  | nil => rfl
  | cons f fs ih =>
      show readCol (reconcileCols (reconcileOne b f f) fs fs) x = readCol b x
      rw [ih (reconcileOne b f f), readCol_reconcileOne_self]

theorem readCol_reconcileCols_eq (b : BState) (fs cs : List Nat)
    (hnd : fs.Nodup) (hlen : fs.length = cs.length)
    (hdisj : ∀ x ∈ fs, x ∉ cs)
    (hv : ∀ x ∈ fs, x < b.cols.length)
    (k : Nat) (hk : k < fs.length) :
    readCol (reconcileCols b fs cs) (fs.getD k 0)
      = combineCell (readCol b (fs.getD k 0)) (readCol b (cs.getD k 0)) := by
  induction fs generalizing b cs k with
  | nil => simp at hk
  | cons f fs ih =>
      cases cs with
      | nil => simp at hlen
      | cons c cs =>
          have hfm : f ∈ f :: fs := List.mem_cons_self f fs
          have hfs : f ∉ fs := (List.nodup_cons.mp hnd).1
          cases k with
          | zero =>
              have hne : f ≠ c := fun he => hdisj f hfm (he ▸ List.mem_cons_self c cs)
              show readCol (reconcileCols (reconcileOne b f c) fs cs) f
                = combineCell (readCol b f) (readCol b c)
              rw [readCol_reconcileCols_ne _ fs cs f hfs]
              exact readCol_reconcileOne_eq b f c hne (hv f hfm)
          | succ k =>
              have hk' : k < fs.length := by simpa using hk
              have hmemf : fs.getD k 0 ∈ fs := getD_mem_of_lt fs k 0 hk'
              have hmemc : cs.getD k 0 ∈ cs := by
                refine getD_mem_of_lt cs k 0 ?_
                have : fs.length = cs.length := by simpa using hlen
                omega
              have hne1 : f ≠ fs.getD k 0 := fun he => hfs (he ▸ hmemf)
              have hne2 : f ≠ cs.getD k 0 := fun he =>
                hdisj f hfm (he ▸ List.mem_cons_of_mem c hmemc)
              show readCol (reconcileCols (reconcileOne b f c) fs cs) ((f :: fs).getD (k + 1) 0)
                = combineCell (readCol b ((f :: fs).getD (k + 1) 0))
                    (readCol b ((c :: cs).getD (k + 1) 0))
              have hgf : (f :: fs).getD (k + 1) 0 = fs.getD k 0 := rfl
              have hgc : (c :: cs).getD (k + 1) 0 = cs.getD k 0 := rfl
              rw [hgf, hgc]
              have ihh := ih (reconcileOne b f c) cs ((List.nodup_cons.mp hnd).2)
                (by simpa using hlen)
                (fun x hx => fun hc => hdisj x (List.mem_cons_of_mem f hx) (List.mem_cons_of_mem c hc))
                (fun x hx => by
                  rw [(reconcileOne_meta b f c).2.2]
                  exact hv x (List.mem_cons_of_mem f hx))
                k hk'
              rw [ihh, readCol_reconcileOne_ne _ _ _ _ hne1, readCol_reconcileOne_ne _ _ _ _ hne2]

theorem unionBranchLoop_reads (b : BState) (fs : List Nat) (rest : List Plan)
    (hnd : fs.Nodup)
    (hv : ∀ x ∈ fs, x < b.cols.length)
    (hdisj : ∀ sel ∈ rest, ∀ x ∈ fs, x ∉ sel.schema)
    (hlen : ∀ sel ∈ rest, sel.schema.length = fs.length) :
    (unionBranchLoop b fs rest).1 = true ∧
    (unionBranchLoop b fs rest).2.id = b.id ∧
    (unionBranchLoop b fs rest).2.err = b.err ∧
    (unionBranchLoop b fs rest).2.cols.length = b.cols.length ∧
    (∀ x, x ∉ fs → readCol (unionBranchLoop b fs rest).2 x = readCol b x) ∧
    (∀ k, k < fs.length →
      readCol (unionBranchLoop b fs rest).2 (fs.getD k 0)
        = List.foldl combineCell (readCol b (fs.getD k 0))
            (rest.map fun sel => readCol b (sel.schema.getD k 0))) := by
  induction rest generalizing b with
  | nil => exact ⟨rfl, rfl, rfl, rfl, fun x _ => rfl, fun k _ => rfl⟩
  | cons sel rest ih =>
      have hsel : sel ∈ sel :: rest := List.mem_cons_self sel rest
      have hc : ¬(fs.length ≠ sel.schema.length) := fun h => h (hlen sel hsel).symm
      have hloop : unionBranchLoop b fs (sel :: rest)
          = unionBranchLoop (reconcileCols b fs sel.schema) fs rest := by
        show (if fs.length ≠ sel.schema.length then _ else _) = _
        rw [if_neg hc]
      have hmeta := reconcileCols_meta b fs sel.schema
      have ihh := ih (reconcileCols b fs sel.schema)
        (fun x hx => by rw [hmeta.2.2]; exact hv x hx)
        (fun s hs => hdisj s (List.mem_cons_of_mem sel hs))
        (fun s hs => hlen s (List.mem_cons_of_mem sel hs))
      rw [hloop]
      refine ⟨ihh.1, ihh.2.1.trans hmeta.1, ihh.2.2.1.trans hmeta.2.1,
        ihh.2.2.2.1.trans hmeta.2.2, ?_, ?_⟩
      · intro x hx
        rw [ihh.2.2.2.2.1 x hx, readCol_reconcileCols_ne b fs sel.schema x hx]
      · intro k hk
        rw [ihh.2.2.2.2.2 k hk]
        have h0 : readCol (reconcileCols b fs sel.schema) (fs.getD k 0)
            = combineCell (readCol b (fs.getD k 0)) (readCol b (sel.schema.getD k 0)) :=
          readCol_reconcileCols_eq b fs sel.schema hnd (hlen sel hsel).symm
            (hdisj sel hsel) hv k hk
        have h1 : (rest.map fun s => readCol (reconcileCols b fs sel.schema) (s.schema.getD k 0))
            = rest.map fun s => readCol b (s.schema.getD k 0) := by
          apply List.map_congr_left
          intro s hs
          have hks : k < s.schema.length := by rw [hlen s (List.mem_cons_of_mem sel hs)]; exact hk
          have hmem : s.schema.getD k 0 ∈ s.schema := getD_mem_of_lt _ _ _ hks
          have hnotfs : s.schema.getD k 0 ∉ fs := fun hin =>
            hdisj s (List.mem_cons_of_mem sel hs) _ hin hmem
          exact readCol_reconcileCols_ne b fs sel.schema _ hnotfs
        rw [h0, h1]
        rfl

theorem retagUnion_reads (b : BState) (refs : List Nat) (uid : OpId)
    (hnd : refs.Nodup) (hv : ∀ x ∈ refs, x < b.cols.length) :
    (retagUnion b refs uid).id = b.id ∧
    (retagUnion b refs uid).err = b.err ∧
    (retagUnion b refs uid).cols.length = b.cols.length ∧
    (∀ x, x ∉ refs → readCol (retagUnion b refs uid) x = readCol b x) ∧
    (∀ k, k < refs.length → readCol (retagUnion b refs uid) (refs.getD k 0)
        = { readCol b (refs.getD k 0) with fromID := some uid, dbName := "" }) := by
  induction refs generalizing b with
  | nil => exact ⟨rfl, rfl, rfl, fun x _ => rfl, fun k hk => by simp at hk⟩
  | cons r rest ih =>
      have hr : r ∉ rest := (List.nodup_cons.mp hnd).1
      have hstep : retagUnion b (r :: rest) uid
          = retagUnion (writeCol b r { readCol b r with fromID := some uid, dbName := "" })
              rest uid := rfl
      have ihh := ih (writeCol b r { readCol b r with fromID := some uid, dbName := "" })
        ((List.nodup_cons.mp hnd).2)
        (fun x hx => by
          rw [writeCol_cols_length]
          exact hv x (List.mem_cons_of_mem r hx))
      rw [hstep]
      refine ⟨ihh.1, ihh.2.1, ihh.2.2.1.trans (writeCol_cols_length b r _), ?_, ?_⟩
      · intro x hx
        have hxr : r ≠ x := fun he => hx (he ▸ List.mem_cons_self r rest)
        rw [ihh.2.2.2.1 x (fun hm => hx (List.mem_cons_of_mem r hm)),
          readCol_writeCol_ne _ _ _ _ hxr]
      · intro k hk
        cases k with
        | zero =>
            show readCol _ r = _
            rw [ihh.2.2.2.1 r hr,
              readCol_writeCol_eq _ _ _ (hv r (List.mem_cons_self r rest))]
            rfl
        | succ k =>
            have hk' : k < rest.length := by simpa using hk
            have hmem : rest.getD k 0 ∈ rest := getD_mem_of_lt _ _ _ hk'
            have hner : r ≠ rest.getD k 0 := fun he => hr (he ▸ hmem)
            show readCol _ (rest.getD k 0) = _
            rw [ihh.2.2.2.2 k hk', readCol_writeCol_ne _ _ _ _ hner]
            rfl

theorem combineCell_eq (a c : ColCell) :
    combineCell a c
      = { a with flen := if a.flen < c.flen then c.flen else a.flen,
                 tp := if a.tp = 0 ∨ a.tp = mysqlTypeNull then c.tp else a.tp } := by
  unfold combineCell
  by_cases h1 : a.flen < c.flen <;> by_cases h2 : a.tp = 0 ∨ a.tp = mysqlTypeNull <;>
    simp [h1, h2]

theorem combineCell_flen (a c : ColCell) : (combineCell a c).flen = max a.flen c.flen := by
  rw [combineCell_eq]
  by_cases h1 : a.flen < c.flen
  · simp only [if_pos h1]
    exact (max_eq_right (le_of_lt h1)).symm
  · simp only [if_neg h1]
    exact (max_eq_left (not_lt.mp h1)).symm

theorem combineCell_tp (a c : ColCell) :
    (combineCell a c).tp = if a.tp = 0 ∨ a.tp = mysqlTypeNull then c.tp else a.tp := by
  rw [combineCell_eq]

theorem foldl_combineCell_flen (cs : List ColCell) (a : ColCell) :
    (List.foldl combineCell a cs).flen = List.foldl max a.flen (cs.map ColCell.flen) := by
  induction cs generalizing a with
  | nil => rfl
  | cons c cs ih =>
      simp only [List.foldl_cons, List.map_cons]
      rw [ih, combineCell_flen]

theorem foldl_combineCell_tp (cs : List ColCell) (a : ColCell) :
    (List.foldl combineCell a cs).tp
      = List.foldl (fun cur t => if cur = 0 ∨ cur = mysqlTypeNull then t else cur) a.tp
          (cs.map ColCell.tp) := by
  induction cs generalizing a with
  | nil => rfl
  | cons c cs ih =>
      simp only [List.foldl_cons, List.map_cons]
      rw [ih, combineCell_tp]

theorem le_foldl_max (l : List Int) (a : Int) : a ≤ List.foldl max a l := by
  induction l generalizing a with
  | nil => exact le_refl a
  | cons c cs ih => exact le_trans (le_max_left a c) (ih (max a c))

theorem mem_le_foldl_max (l : List Int) (a x : Int) (hx : x ∈ l) : x ≤ List.foldl max a l := by
  induction l generalizing a with
  | nil => simp at hx
  | cons c cs ih =>
      rcases List.mem_cons.mp hx with h | h
      · subst h
        exact le_trans (le_max_right a x) (le_foldl_max cs (max a x))
      · exact ih (max a c) h

theorem foldl_max_init_or_mem (l : List Int) (a : Int) :
    List.foldl max a l = a ∨ List.foldl max a l ∈ l := by
  induction l generalizing a with
  | nil => exact Or.inl rfl
  | cons c cs ih =>
      rcases ih (max a c) with h | h
      · rcases max_choice a c with hm | hm
        · exact Or.inl (by rw [List.foldl_cons, h, hm])
        · exact Or.inr (by rw [List.foldl_cons, h, hm]; exact List.mem_cons_self c cs)
      · exact Or.inr (List.mem_cons_of_mem c h)

theorem foldl_adopt_of_good (l : List Nat) (t0 : Nat)
    (h : ¬(t0 = 0 ∨ t0 = mysqlTypeNull)) :
    List.foldl (fun cur t => if cur = 0 ∨ cur = mysqlTypeNull then t else cur) t0 l = t0 := by
  induction l with
  | nil => rfl
  | cons c cs ih =>
      simp only [List.foldl_cons, if_neg h]
      exact ih

/-- The first step of the union branch loop runs on the first branch
itself; since `firstSchema` shares the first branch's column objects the
per-position reconcile is a read-level no-op there. -/
theorem unionBranchLoop_all (b : BState) (s0 : Plan) (rest : List Plan)
    (hnd : s0.schema.Nodup)
    (hv : ∀ x ∈ s0.schema, x < b.cols.length)
    (hdisj : ∀ sel ∈ rest, ∀ x ∈ s0.schema, x ∉ sel.schema)
    (hlen : ∀ sel ∈ rest, sel.schema.length = s0.schema.length) :
    (unionBranchLoop b s0.schema (s0 :: rest)).1 = true ∧
    (unionBranchLoop b s0.schema (s0 :: rest)).2.id = b.id ∧
    (unionBranchLoop b s0.schema (s0 :: rest)).2.err = b.err ∧
    (unionBranchLoop b s0.schema (s0 :: rest)).2.cols.length = b.cols.length ∧
    (∀ x, x ∉ s0.schema → readCol (unionBranchLoop b s0.schema (s0 :: rest)).2 x = readCol b x) ∧
    (∀ k, k < s0.schema.length →
      readCol (unionBranchLoop b s0.schema (s0 :: rest)).2 (s0.schema.getD k 0)
        = List.foldl combineCell (readCol b (s0.schema.getD k 0))
            (rest.map fun sel => readCol b (sel.schema.getD k 0))) := by
  have hc : ¬(s0.schema.length ≠ s0.schema.length) := fun h => h rfl
  have hstep : unionBranchLoop b s0.schema (s0 :: rest)
      = unionBranchLoop (reconcileCols b s0.schema s0.schema) s0.schema rest := by
    show (if s0.schema.length ≠ s0.schema.length then _ else _) = _
    rw [if_neg hc]
  have hself : ∀ y, readCol (reconcileCols b s0.schema s0.schema) y = readCol b y :=
    readCol_reconcileCols_self b s0.schema
  have hmeta := reconcileCols_meta b s0.schema s0.schema
  have hl := unionBranchLoop_reads (reconcileCols b s0.schema s0.schema) s0.schema rest hnd
    (fun x hx => by rw [hmeta.2.2]; exact hv x hx) hdisj hlen
  rw [hstep]
  refine ⟨hl.1, hl.2.1.trans hmeta.1, hl.2.2.1.trans hmeta.2.1,
    hl.2.2.2.1.trans hmeta.2.2, ?_, ?_⟩
  · intro x hx
    rw [hl.2.2.2.2.1 x hx, hself x]
  · intro k hk
    rw [hl.2.2.2.2.2 k hk, hself]
    have hmap : (rest.map fun sel =>
        readCol (reconcileCols b s0.schema s0.schema) (sel.schema.getD k 0))
        = rest.map fun sel => readCol b (sel.schema.getD k 0) :=
      List.map_congr_left fun sel _ => hself _
    rw [hmap]

/-- The successful shape of `buildNewUnion` with no trailing
DISTINCT/ORDER BY/LIMIT clause. -/
theorem buildNewUnion_success (rw : Rewriter) (b : BState) (s0 : Plan) (rest : List Plan)
    (hloop : (unionBranchLoop (allocID b "*plan.Union").2 s0.schema (s0 :: rest)).1 = true) :
    buildNewUnion rw b (s0 :: rest) false none none
      = (some (.union (some ("*plan.Union", b.id + 1)) false s0.schema (s0 :: rest)),
         retagUnion (unionBranchLoop (allocID b "*plan.Union").2 s0.schema (s0 :: rest)).2
           s0.schema ("*plan.Union", b.id + 1)) := by
  show (if (unionBranchLoop (allocID b "*plan.Union").2 s0.schema (s0 :: rest)).1 = false
      then _ else _) = _
  rw [hloop]
  rfl

/-- Combined read-level description of a successful union build (no
trailing DISTINCT/ORDER BY/LIMIT): the union operator carries the first
branch's schema references, every column object outside the first
branch's schema is untouched, and each first-branch column object holds
the reconciled value retagged with the union id. -/
theorem buildNewUnion_reads (rw : Rewriter) (b : BState) (s0 : Plan) (rest : List Plan)
    (hnd : s0.schema.Nodup)
    (hv : ∀ x ∈ s0.schema, x < b.cols.length)
    (hdisj : ∀ sel ∈ rest, ∀ x ∈ s0.schema, x ∉ sel.schema)
    (hlen : ∀ sel ∈ rest, sel.schema.length = s0.schema.length) :
    ∃ b2, buildNewUnion rw b (s0 :: rest) false none none
        = (some (.union (some ("*plan.Union", b.id + 1)) false s0.schema (s0 :: rest)), b2) ∧
      (∀ x, x ∉ s0.schema → readCol b2 x = readCol b x) ∧
      (∀ k, k < s0.schema.length →
        readCol b2 (s0.schema.getD k 0)
          = { List.foldl combineCell (readCol b (s0.schema.getD k 0))
                (rest.map fun sel => readCol b (sel.schema.getD k 0)) with
              fromID := some ("*plan.Union", b.id + 1), dbName := "" }) := by
  have hA := unionBranchLoop_all (allocID b "*plan.Union").2 s0 rest hnd hv hdisj hlen
  have hsucc := buildNewUnion_success rw b s0 rest hA.1
  have hR := retagUnion_reads (unionBranchLoop (allocID b "*plan.Union").2 s0.schema
      (s0 :: rest)).2 s0.schema ("*plan.Union", b.id + 1) hnd
    (fun x hx => by rw [hA.2.2.2.1]; exact hv x hx)
  refine ⟨_, hsucc, ?_, ?_⟩
  · intro x hx
    rw [hR.2.2.2.1 x hx, hA.2.2.2.2.1 x hx]
    rfl
  · intro k hk
    rw [hR.2.2.2.2 k hk, hA.2.2.2.2.2 k hk]
    rfl

/-- C3: for every UNION whose branches all have equal column counts
(with the well-formedness that holds for independently built branches:
the first branch's schema objects are distinct and not shared with a
later branch), the result schema at each position has declared display
length equal to the maximum across all branches at that position; its
declared type is the sequential adoption fold that takes another
branch's type only while the current type is unset (0) or the null
placeholder; in particular when the first branch's type at that
position is already concrete it is kept unchanged. -/
theorem buildNewUnion_widens_and_adopts_types (rw : Rewriter) (b : BState)
    (s0 : Plan) (rest : List Plan) (k : Nat)
    (hnd : s0.schema.Nodup)
    (hv : ∀ x ∈ s0.schema, x < b.cols.length)
    (hdisj : ∀ sel ∈ rest, ∀ x ∈ s0.schema, x ∉ sel.schema)
    (hlen : ∀ sel ∈ rest, sel.schema.length = s0.schema.length)
    (hk : k < s0.schema.length) :
    ∃ u b2, buildNewUnion rw b (s0 :: rest) false none none = (some u, b2) ∧
      u.schema = s0.schema ∧
      (∀ sel ∈ s0 :: rest,
        (readCol b (sel.schema.getD k 0)).flen ≤ (readCol b2 (s0.schema.getD k 0)).flen) ∧
      (∃ sel ∈ s0 :: rest,
        (readCol b2 (s0.schema.getD k 0)).flen = (readCol b (sel.schema.getD k 0)).flen) ∧
      ((readCol b2 (s0.schema.getD k 0)).tp
        = List.foldl (fun cur t => if cur = 0 ∨ cur = mysqlTypeNull then t else cur)
            (readCol b (s0.schema.getD k 0)).tp
            ((s0 :: rest).map fun sel => (readCol b (sel.schema.getD k 0)).tp)) ∧
      (¬((readCol b (s0.schema.getD k 0)).tp = 0 ∨
          (readCol b (s0.schema.getD k 0)).tp = mysqlTypeNull) →
        (readCol b2 (s0.schema.getD k 0)).tp = (readCol b (s0.schema.getD k 0)).tp) := by
  obtain ⟨b2, heq, hframe, hat⟩ := buildNewUnion_reads rw b s0 rest hnd hv hdisj hlen
  have hflen : (readCol b2 (s0.schema.getD k 0)).flen
      = List.foldl max (readCol b (s0.schema.getD k 0)).flen
          (rest.map fun sel => (readCol b (sel.schema.getD k 0)).flen) := by
    rw [hat k hk]
    show (List.foldl combineCell _ _).flen = _
    rw [foldl_combineCell_flen, List.map_map]
    rfl
  have htp : (readCol b2 (s0.schema.getD k 0)).tp
      = List.foldl (fun cur t => if cur = 0 ∨ cur = mysqlTypeNull then t else cur)
          (readCol b (s0.schema.getD k 0)).tp
          (rest.map fun sel => (readCol b (sel.schema.getD k 0)).tp) := by
    rw [hat k hk]
    show (List.foldl combineCell _ _).tp = _
    rw [foldl_combineCell_tp, List.map_map]
    rfl
  refine ⟨_, b2, heq, rfl, ?_, ?_, ?_, ?_⟩
  · intro sel hsel
    rw [hflen]
    rcases List.mem_cons.mp hsel with h | h
    · subst h
      exact le_foldl_max _ _
    · exact mem_le_foldl_max _ _ _ (List.mem_map_of_mem _ h)
  · rw [hflen]
    rcases foldl_max_init_or_mem
        (rest.map fun sel => (readCol b (sel.schema.getD k 0)).flen)
        (readCol b (s0.schema.getD k 0)).flen with h | h
    · exact ⟨s0, List.mem_cons_self s0 rest, h⟩
    · obtain ⟨sel, hsel, hval⟩ := List.mem_map.mp h
      exact ⟨sel, List.mem_cons_of_mem s0 hsel, by rw [hval]⟩
  · rw [htp, List.map_cons, List.foldl_cons, ite_self]
  · intro hgood
    rw [htp]
    exact foldl_adopt_of_good _ _ hgood

/-- C5 (amended): in a union build the branches other than the first
keep every attached schema column object unchanged, while the first
branch's attached column objects — shared with the union's own schema —
are mutated in place (retagged to the union's id with the database
qualifier cleared); `buildNewDistinct` shares its child's schema
outright rather than copying it. -/
theorem buildNewUnion_mutates_shared_first_branch (rw : Rewriter) (b : BState)
    (s0 : Plan) (rest : List Plan)
    (hnd : s0.schema.Nodup)
    (hv : ∀ x ∈ s0.schema, x < b.cols.length)
    (hdisj : ∀ sel ∈ rest, ∀ x ∈ s0.schema, x ∉ sel.schema)
    (hlen : ∀ sel ∈ rest, sel.schema.length = s0.schema.length) :
    ∃ u b2, buildNewUnion rw b (s0 :: rest) false none none = (some u, b2) ∧
      u.children = s0 :: rest ∧
      u.schema = s0.schema ∧
      (∀ sel ∈ rest, ∀ x ∈ sel.schema, readCol b2 x = readCol b x) ∧
      (∀ k, k < s0.schema.length →
        (readCol b2 (s0.schema.getD k 0)).fromID = some ("*plan.Union", b.id + 1) ∧
        (readCol b2 (s0.schema.getD k 0)).dbName = "") ∧
      (∀ q : Plan, (buildNewDistinct q).schema = q.schema) := by
  obtain ⟨b2, heq, hframe, hat⟩ := buildNewUnion_reads rw b s0 rest hnd hv hdisj hlen
  refine ⟨_, b2, heq, rfl, rfl, ?_, ?_, fun q => rfl⟩
  · intro sel hsel x hx
    refine hframe x (fun hin => ?_)
    exact hdisj sel hsel x hin hx
  · intro k hk
    rw [hat k hk]
    exact ⟨rfl, rfl⟩

/-- The branches of the `SELECT NULL UNION SELECT 'abc'` shaped example:
a one-column table whose column is null-typed and a one-column table
whose column is text-typed. -/
def unT1 : TableNameNode :=
  ⟨[{ dbName := "test", tblName := "t1", colName := "a", tp := mysqlTypeNull, flen := 4 }]⟩

def unT2 : TableNameNode :=
  ⟨[{ dbName := "test", tblName := "t2", colName := "a", tp := mysqlTypeVarString, flen := 3 }]⟩

def uScan1 : Plan := (buildNewTableScanPlan {} unT1).1

def uState1 : BState := (buildNewTableScanPlan {} unT1).2

def uScan2 : Plan := (buildNewTableScanPlan uState1 unT2).1

def uState2 : BState := (buildNewTableScanPlan uState1 unT2).2

theorem buildNewUnion_widens_and_adopts_types_witness :
    (uScan1.schema.Nodup ∧ (∀ x ∈ uScan1.schema, x < uState2.cols.length) ∧
      (∀ sel ∈ [uScan2], ∀ x ∈ uScan1.schema, x ∉ sel.schema) ∧
      (∀ sel ∈ [uScan2], sel.schema.length = uScan1.schema.length) ∧ 0 < uScan1.schema.length) ∧
    (∃ u b2, buildNewUnion rwTrivial uState2 (uScan1 :: [uScan2]) false none none = (some u, b2) ∧
      u.schema = uScan1.schema ∧
      (∀ sel ∈ uScan1 :: [uScan2],
        (readCol uState2 (sel.schema.getD 0 0)).flen ≤ (readCol b2 (uScan1.schema.getD 0 0)).flen) ∧
      (∃ sel ∈ uScan1 :: [uScan2],
        (readCol b2 (uScan1.schema.getD 0 0)).flen = (readCol uState2 (sel.schema.getD 0 0)).flen) ∧
      ((readCol b2 (uScan1.schema.getD 0 0)).tp
        = List.foldl (fun cur t => if cur = 0 ∨ cur = mysqlTypeNull then t else cur)
            (readCol uState2 (uScan1.schema.getD 0 0)).tp
            ((uScan1 :: [uScan2]).map fun sel => (readCol uState2 (sel.schema.getD 0 0)).tp)) ∧
      (¬((readCol uState2 (uScan1.schema.getD 0 0)).tp = 0 ∨
          (readCol uState2 (uScan1.schema.getD 0 0)).tp = mysqlTypeNull) →
        (readCol b2 (uScan1.schema.getD 0 0)).tp = (readCol uState2 (uScan1.schema.getD 0 0)).tp)) ∧
    (readCol (buildNewUnion rwTrivial uState2 [uScan1, uScan2] false none none).2 0).tp
      = mysqlTypeVarString ∧
    (readCol (buildNewUnion rwTrivial uState2 [uScan1, uScan2] false none none).2 0).flen = 4 :=
  ⟨⟨by decide, by decide, by decide, by decide, by decide⟩,
   buildNewUnion_widens_and_adopts_types rwTrivial uState2 uScan1 [uScan2] 0
     (by decide) (by decide) (by decide) (by decide) (by decide),
   by decide, by decide⟩

/-- C5 counterexample: in `uScan1 UNION uScan2` the first branch is an
already built operator whose attached schema is the single column object
at heap cell 0, produced by the scan with id `NewTableScan_1`; after the
union build the very same cell carries the union's producing id — the
child operator's attached schema column was mutated, not copied. -/
theorem union_mutates_attached_child_schema_counterexample :
    uScan1.schema = [0] ∧
    (readCol uState2 0).fromID = some ("*plan.NewTableScan", 1) ∧
    (readCol (buildNewUnion rwTrivial uState2 [uScan1, uScan2] false none none).2 0).fromID
      = some ("*plan.Union", 3) ∧
    (some (("*plan.NewTableScan", 1) : OpId) ≠ some (("*plan.Union", 3) : OpId)) := by
  refine ⟨by decide, by decide, by decide, by decide⟩

theorem buildNewUnion_mutates_shared_first_branch_witness :
    (uScan1.schema.Nodup ∧ (∀ x ∈ uScan1.schema, x < uState2.cols.length) ∧
      (∀ sel ∈ [uScan2], ∀ x ∈ uScan1.schema, x ∉ sel.schema) ∧
      (∀ sel ∈ [uScan2], sel.schema.length = uScan1.schema.length)) ∧
    (∃ u b2, buildNewUnion rwTrivial uState2 (uScan1 :: [uScan2]) false none none = (some u, b2) ∧
      u.children = uScan1 :: [uScan2] ∧
      u.schema = uScan1.schema ∧
      (∀ sel ∈ [uScan2], ∀ x ∈ sel.schema, readCol b2 x = readCol uState2 x) ∧
      (∀ k, k < uScan1.schema.length →
        (readCol b2 (uScan1.schema.getD k 0)).fromID = some ("*plan.Union", uState2.id + 1) ∧
        (readCol b2 (uScan1.schema.getD k 0)).dbName = "") ∧
      (∀ q : Plan, (buildNewDistinct q).schema = q.schema)) :=
  ⟨⟨by decide, by decide, by decide, by decide⟩,
   buildNewUnion_mutates_shared_first_branch rwTrivial uState2 uScan1 [uScan2]
     (by decide) (by decide) (by decide) (by decide)⟩

theorem readCol_allocCol_fresh (b : BState) (v : ColCell) :
    readCol (allocCol b v).2 (allocCol b v).1 = v := by
  simp [readCol, allocCol, List.getD_eq_getElem?_getD]

theorem readCol_allocCol_old (b : BState) (v : ColCell) (x : Nat) (h : x < b.cols.length) :
    readCol (allocCol b v).2 x = readCol b x := by
  simp [readCol, allocCol, List.getD_eq_getElem?_getD, List.getElem?_append_left h]

theorem allocCols_meta (b : BState) (vs : List ColCell) :
    (allocCols b vs).2.id = b.id ∧ (allocCols b vs).2.err = b.err ∧
      (allocCols b vs).2.cols.length = b.cols.length + vs.length ∧
      (allocCols b vs).1.length = vs.length := by
  induction vs generalizing b with
  | nil => exact ⟨rfl, rfl, rfl, rfl⟩
  | cons v rest ih =>
      have ihh := ih (allocCol b v).2
      refine ⟨ihh.1, ihh.2.1, ?_, ?_⟩
      · show (allocCols (allocCol b v).2 rest).2.cols.length = b.cols.length + (rest.length + 1)
        rw [ihh.2.2.1]
        simp [allocCol]
        omega
      · show ((allocCol b v).1 :: (allocCols (allocCol b v).2 rest).1).length = rest.length + 1
        simp [ihh.2.2.2]

theorem readCol_allocCols_old (b : BState) (vs : List ColCell) (x : Nat)
    (h : x < b.cols.length) :
    readCol (allocCols b vs).2 x = readCol b x := by
  induction vs generalizing b with
  | nil => rfl
  | cons v rest ih =>
      show readCol (allocCols (allocCol b v).2 rest).2 x = readCol b x
      rw [ih (allocCol b v).2 (by simp [allocCol]; omega), readCol_allocCol_old b v x h]

theorem readCols_allocCols (b : BState) (vs : List ColCell) :
    readCols (allocCols b vs).2 (allocCols b vs).1 = vs := by
  induction vs generalizing b with
  | nil => rfl
  | cons v rest ih =>
      show readCol (allocCols (allocCol b v).2 rest).2 (allocCol b v).1
          :: readCols (allocCols (allocCol b v).2 rest).2 (allocCols (allocCol b v).2 rest).1
        = v :: rest
      rw [ih (allocCol b v).2,
        readCol_allocCols_old (allocCol b v).2 rest (allocCol b v).1 (by simp [allocCol]),
        readCol_allocCol_fresh]

theorem deepCopySchema_length (b : BState) (refs : List Nat) :
    (deepCopySchema b refs).1.length = refs.length := by
  rw [show (deepCopySchema b refs).1 = (allocCols b (readCols b refs)).1 from rfl,
    (allocCols_meta b (readCols b refs)).2.2.2]
  simp [readCols]

theorem readCols_deepCopySchema (b : BState) (refs : List Nat) :
    readCols (deepCopySchema b refs).2 (deepCopySchema b refs).1 = readCols b refs :=
  readCols_allocCols b (readCols b refs)

/-- C7: the final visible-width check of the top-level SELECT build.
Under the builder invariant that the visible-field count never exceeds
the built schema width, a wider schema gets a `Trim` root whose schema
is exactly the first `oldLen` columns of (a deep copy of) its input
schema, with the input attached as its only child; an exact-width
schema is returned unchanged with no `Trim` added. -/
theorem buildNewSelectTrim_trims_to_visible_width (b : BState) (p : Plan) (oldLen : Nat)
    (h : oldLen ≤ p.schema.length) :
    (oldLen < p.schema.length →
      buildNewSelectTrim b p oldLen
        = (.trim (some ("*plan.Trim", b.id + 1)) p.correlated
            ((deepCopySchema (allocID b "*plan.Trim").2 p.schema).1.take oldLen) [p],
           (deepCopySchema (allocID b "*plan.Trim").2 p.schema).2) ∧
      ((deepCopySchema (allocID b "*plan.Trim").2 p.schema).1.take oldLen).length = oldLen ∧
      readCols (deepCopySchema (allocID b "*plan.Trim").2 p.schema).2
          ((deepCopySchema (allocID b "*plan.Trim").2 p.schema).1.take oldLen)
        = (readCols b p.schema).take oldLen) ∧
    (oldLen = p.schema.length → buildNewSelectTrim b p oldLen = (p, b)) := by
  constructor
  · intro hlt
    have hne : oldLen ≠ p.schema.length := Nat.ne_of_lt hlt
    refine ⟨?_, ?_, ?_⟩
    · show (if oldLen ≠ p.schema.length then _ else _) = _
      rw [if_pos hne]
      rfl
    · rw [List.length_take, deepCopySchema_length]
      omega
    · show ((deepCopySchema (allocID b "*plan.Trim").2 p.schema).1.take oldLen).map
          (readCol (deepCopySchema (allocID b "*plan.Trim").2 p.schema).2)
        = (readCols b p.schema).take oldLen
      rw [List.map_take]
      show (readCols (deepCopySchema (allocID b "*plan.Trim").2 p.schema).2
          (deepCopySchema (allocID b "*plan.Trim").2 p.schema).1).take oldLen = _
      rw [readCols_deepCopySchema]
      show (readCols (allocID b "*plan.Trim").2 p.schema).take oldLen = _
      rfl
  · intro heq
    show (if oldLen ≠ p.schema.length then _ else _) = _
    rw [if_neg (by simpa using heq)]

/-- A two-column base table used by the trim witness. -/
def tnTwoCols : TableNameNode :=
  ⟨[{ dbName := "test", tblName := "t", colName := "a", tp := 3, flen := 11 },
    { dbName := "test", tblName := "t", colName := "b", tp := 3, flen := 11 }]⟩

def c7scan : Plan := (buildNewTableScanPlan {} tnTwoCols).1

def c7state : BState := (buildNewTableScanPlan {} tnTwoCols).2

theorem buildNewSelectTrim_trims_to_visible_width_witness :
    (1 ≤ c7scan.schema.length) ∧
    ((1 < c7scan.schema.length →
      buildNewSelectTrim c7state c7scan 1
        = (.trim (some ("*plan.Trim", c7state.id + 1)) c7scan.correlated
            ((deepCopySchema (allocID c7state "*plan.Trim").2 c7scan.schema).1.take 1) [c7scan],
           (deepCopySchema (allocID c7state "*plan.Trim").2 c7scan.schema).2) ∧
      ((deepCopySchema (allocID c7state "*plan.Trim").2 c7scan.schema).1.take 1).length = 1 ∧
      readCols (deepCopySchema (allocID c7state "*plan.Trim").2 c7scan.schema).2
          ((deepCopySchema (allocID c7state "*plan.Trim").2 c7scan.schema).1.take 1)
        = (readCols c7state c7scan.schema).take 1) ∧
    (1 = c7scan.schema.length → buildNewSelectTrim c7state c7scan 1 = (c7scan, c7state))) :=
  ⟨by decide, buildNewSelectTrim_trims_to_visible_width c7state c7scan 1 (by decide)⟩

/-- The `NewSort` plan the limit is applied to: `ORDER BY` over a scan,
built by the new sort builder. -/
def c8sort : Plan :=
  ((buildNewSort rwTrivial uState1 uScan1 [] []).1).getD (Plan.newTableScan none none false [])

def c8state : BState := (buildNewSort rwTrivial uState1 uScan1 [] []).2

/-- C8: `buildNewLimit` applied to a plan whose root is a `NewSort`
produced by `buildNewSort` does **not** fold the limit into the sort —
the fold branch type-asserts the old planner `*plan.Sort`, and `NewSort`
has no `ExecLimit` slot at all — so a separate `Limit` operator is
created wrapping the sort. -/
theorem buildNewLimit_wraps_new_sort :
    (buildNewSort rwTrivial uState1 uScan1 [] []).1 = some c8sort ∧
    buildNewLimit c8state c8sort ⟨0, 10⟩
      = (.limit none 0 10 false [2] [c8sort], (deepCopySchema c8state c8sort.schema).2) ∧
    (Plan.limit none 0 10 false [2] [c8sort]).children = [c8sort] := by
  exact ⟨rfl, rfl, rfl⟩

/-! ## The `SELECT SUM(a) FROM t HAVING SUM(a) > 1 ORDER BY SUM(a)` statement -/

/-- The SELECT-list aggregate node. -/
def c4agg0 : AstExpr := .aggCall 0 "sum" [.colNameRef "" "a"] false

/-- The HAVING aggregate node — textually identical, distinct AST node. -/
def c4agg1 : AstExpr := .aggCall 1 "sum" [.colNameRef "" "a"] false

/-- The ORDER BY aggregate node — textually identical, distinct AST node. -/
def c4agg2 : AstExpr := .aggCall 2 "sum" [.colNameRef "" "a"] false

def c4sel : SelectStmt :=
  { fields := [{ expr := c4agg0 }],
    having := some (.cmp "gt" c4agg1 (.lit 1)),
    orderByItems := some [(c4agg2, false)] }

def c4table : TableNameNode :=
  ⟨[{ dbName := "test", tblName := "t", colName := "a", tp := 3, flen := 11 }]⟩

def c4scan : Plan := (buildNewTableScanPlan {} c4table).1

def c4state : BState := (buildNewTableScanPlan {} c4table).2

/-- C4 counterexample: on `SELECT SUM(a) FROM t HAVING SUM(a) > 1 ORDER
BY SUM(a)` the aggregation builder creates **five** output schema
columns, not one: the HAVING and ORDER BY aggregates are appended as
auxiliary fields and then collected a second time by the field-list
pass, so `aggList` holds five entries.  Moreover the three placeholder
references do not share one backing column: the SELECT item resolves
through the master map to aggregation column 0 while the HAVING and
ORDER BY auxiliary fields resolve to columns 3 and 4. -/
theorem agg_single_backing_column_counterexample :
    ((buildAggregation rwTrivial c4state c4scan (extractAggFunc c4sel).2.1 [] false).1.getD
        (Plan.newTableScan none none false [])).schema.length = 5 ∧
    (5 ≠ 1) ∧
    mapLookup (extractAggFunc c4sel).2.2.2.2 (aggTag c4agg0) = some 0 ∧
    mapLookup (extractAggFunc c4sel).2.2.2.2 (aggTag c4agg1) = some 3 ∧
    mapLookup (extractAggFunc c4sel).2.2.2.2 (aggTag c4agg2) = some 4 ∧
    ((some 0 : Option Nat) ≠ some 3) := by
  refine ⟨by decide, by decide, by decide, by decide, by decide, by decide⟩

/-- C4 (amended): the extraction's three ordered passes on this
statement produce the separate HAVING map `{having-agg ↦ field 1}` and
ORDER BY map `{orderby-agg ↦ field 2}`, distinct from each other and
from the master map `{select-agg ↦ 0, having-agg ↦ 3, orderby-agg ↦ 4}`
(the later duplicate occurrences overwrite the earlier master
positions); the field list ends with the two auxiliary fields appended;
`aggList` carries the five collected occurrences and the aggregation
builder creates exactly one output schema column per entry. -/
theorem agg_three_passes_amended :
    ((extractAggFunc c4sel).2.1.map aggTag) = [0, 1, 2, 1, 2] ∧
    (extractAggFunc c4sel).2.2.1 = [(1, 1)] ∧
    (extractAggFunc c4sel).2.2.2.1 = [(2, 2)] ∧
    (extractAggFunc c4sel).2.2.2.2 = [(0, 0), (1, 3), (2, 4)] ∧
    ((extractAggFunc c4sel).2.2.1 ≠ (extractAggFunc c4sel).2.2.2.1) ∧
    ((extractAggFunc c4sel).2.2.1 ≠ (extractAggFunc c4sel).2.2.2.2) ∧
    ((extractAggFunc c4sel).2.2.2.1 ≠ (extractAggFunc c4sel).2.2.2.2) ∧
    (extractAggFunc c4sel).1.fields.length = 3 ∧
    ((extractAggFunc c4sel).1.fields.map SelectField.auxiliary) = [false, true, true] ∧
    ((buildAggregation rwTrivial c4state c4scan (extractAggFunc c4sel).2.1 [] false).1.getD
        (Plan.newTableScan none none false [])).schema.length
      = (extractAggFunc c4sel).2.1.length := by
  refine ⟨by decide, by decide, by decide, by decide, by decide, by decide, by decide,
    by decide, by decide, by decide⟩

/-! ## Correlated ON conditions (claim C6) -/

/-- A rewriter that reports an outer-scope (correlated) reference for
every expression, with no error — the shape `buildNewJoin` receives for
a correlated ON condition. -/
def rwCorrelated : Rewriter := fun b _ p _ => (b, .const 1, p, true, none)

/-- The right-only residual conditions of a join operator. -/
def Plan.joinRightConds : Plan → List Expr
  | .join _ _ _ _ rc _ _ _ _ => rc
  | _ => []

def c6join : AstJoin :=
  .mk (.tableSource unT1 "") (some (.tableSource unT2 "")) (some (.lit 0)) .crossJoin

/-- C6 counterexample: when the ON-clause rewrite reports an outer-scope
reference, `buildNewJoin` records the error but does **not** return an
absent plan: it goes on to classify the rewritten condition (here into
the right-only residual list) and returns the completed join
operator. -/
theorem join_correlated_on_counterexample :
    ((buildNewJoin rwCorrelated {} c6join).1).isSome = true ∧
    (buildNewJoin rwCorrelated {} c6join).2.err
      = some "On condition does not support subqueries yet." ∧
    Plan.joinRightConds ((buildNewJoin rwCorrelated {} c6join).1.getD
        (Plan.newTableScan none none false []))
      = [.const 1] := by
  exact ⟨rfl, rfl, rfl⟩

/-- C6 (amended): for every join whose children build successfully and
whose ON-clause rewrite reports an outer-scope reference without a
rewrite failure, the error is recorded in the sticky slot, but the
builder still classifies the rewritten condition and returns the
completed (present) join operator; the caller discards it through its
own post-call error check. -/
theorem buildNewJoin_correlated_on_continues (rw : Rewriter) (b : BState)
    (ltree rt : ResultSetNode) (onE : AstExpr) (tp : AstJoinTp)
    (lp rp : Plan) (b1 b2 : BState)
    (h1 : buildResultSetNode rw b ltree = (some lp, b1))
    (h2 : buildResultSetNode rw b1 rt = (some rp, b2))
    (h3 : ∀ b0 p0 m0, (rw b0 onE p0 m0).2.2.2.1 = true ∧ (rw b0 onE p0 m0).2.2.2.2 = none) :
    ((buildNewJoin rw b (.mk ltree (some rt) (some onE) tp)).1).isSome = true ∧
    (buildNewJoin rw b (.mk ltree (some rt) (some onE) tp)).2.err
      = some "On condition does not support subqueries yet." := by
  obtain ⟨hc, he⟩ := h3 (deepCopySchema (deepCopySchema b2 lp.schema).2 rp.schema).2
    (Plan.join none .innerJoin [] [] [] [] (lp.correlated || rp.correlated)
      ((deepCopySchema b2 lp.schema).1 ++
        (deepCopySchema (deepCopySchema b2 lp.schema).2 rp.schema).1) []) []
  simp only [buildNewJoin, h1, h2]
  rw [he, hc]
  exact ⟨rfl, rfl⟩

def c6lp : Plan :=
  ((buildResultSetNode rwCorrelated {} (.tableSource unT1 "")).1).getD
    (Plan.newTableScan none none false [])

def c6b1 : BState := (buildResultSetNode rwCorrelated {} (.tableSource unT1 "")).2

def c6rp : Plan :=
  ((buildResultSetNode rwCorrelated c6b1 (.tableSource unT2 "")).1).getD
    (Plan.newTableScan none none false [])

def c6b2 : BState := (buildResultSetNode rwCorrelated c6b1 (.tableSource unT2 "")).2

theorem buildNewJoin_correlated_on_continues_witness :
    (buildResultSetNode rwCorrelated {} (.tableSource unT1 "") = (some c6lp, c6b1)) ∧
    (buildResultSetNode rwCorrelated c6b1 (.tableSource unT2 "") = (some c6rp, c6b2)) ∧
    (∀ b0 p0 m0, (rwCorrelated b0 (.lit 0) p0 m0).2.2.2.1 = true ∧
      (rwCorrelated b0 (.lit 0) p0 m0).2.2.2.2 = none) ∧
    ((buildNewJoin rwCorrelated {}
        (.mk (.tableSource unT1 "") (some (.tableSource unT2 "")) (some (.lit 0))
          .crossJoin)).1).isSome = true ∧
    (buildNewJoin rwCorrelated {}
        (.mk (.tableSource unT1 "") (some (.tableSource unT2 "")) (some (.lit 0))
          .crossJoin)).2.err
      = some "On condition does not support subqueries yet." :=
  ⟨rfl, rfl, fun b0 p0 m0 => ⟨rfl, rfl⟩,
   (buildNewJoin_correlated_on_continues rwCorrelated {} (.tableSource unT1 "")
     (.tableSource unT2 "") (.lit 0) .crossJoin c6lp c6rp c6b1 c6b2 rfl rfl
     (fun b0 p0 m0 => ⟨rfl, rfl⟩)).1,
   (buildNewJoin_correlated_on_continues rwCorrelated {} (.tableSource unT1 "")
     (.tableSource unT2 "") (.lit 0) .crossJoin c6lp c6rp c6b1 c6b2 rfl rfl
     (fun b0 p0 m0 => ⟨rfl, rfl⟩)).2⟩

/-! ## The sticky error slot (claim C1) -/

theorem buildNewTableScanPlan_meta (b : BState) (tn : TableNameNode) :
    (buildNewTableScanPlan b tn).2.err = b.err ∧
    (buildNewTableScanPlan b tn).2.id = b.id + 1 ∧
    (buildNewTableScanPlan b tn).2.cols.length = b.cols.length + tn.fields.length := by
  refine ⟨(allocCols_meta _ _).2.1, (allocCols_meta _ _).1, Eq.trans ((allocCols_meta _ _).2.2.1) ?_⟩
  simp [allocID]

theorem retagAlias_meta (b : BState) (refs : List Nat) (n : String) :
    (retagAlias b refs n).id = b.id ∧ (retagAlias b refs n).err = b.err := by
  induction refs generalizing b with
  | nil => exact ⟨rfl, rfl⟩
  | cons r rest ih => exact (ih _)

theorem deepCopySchema_meta (b : BState) (refs : List Nat) :
    (deepCopySchema b refs).2.id = b.id ∧ (deepCopySchema b refs).2.err = b.err :=
  ⟨(allocCols_meta _ _).1, (allocCols_meta _ _).2.1⟩

mutual

theorem buildResultSetNode_err_sticky (rw : Rewriter)
    (hrw : ∀ (b0 : BState) (a : AstExpr) (p0 : Plan) (m : List (Nat × Nat)),
      b0.err ≠ none → ((rw b0 a p0 m).1).err ≠ none) :
    ∀ (b : BState) (node : ResultSetNode), b.err ≠ none →
      (buildResultSetNode rw b node).2.err ≠ none
  | b, .joinNode j, h => buildNewJoin_err_sticky rw hrw b j h
  | b, .tableSource t asName, h => by
      have hpb : (buildNewTableScanPlan b t).2.err = b.err := (buildNewTableScanPlan_meta b t).1
      have hcond : (buildNewTableScanPlan b t).2.err ≠ none := by rw [hpb]; exact h
      show (buildResultSetNode rw b (.tableSource t asName)).2.err ≠ none
      simp only [buildResultSetNode]
      rw [if_pos hcond]
      exact hcond
  | b, .unsupportedSource, h => by
      show (buildResultSetNode rw b .unsupportedSource).2.err ≠ none
      simp [buildResultSetNode]

theorem buildNewJoin_err_sticky (rw : Rewriter)
    (hrw : ∀ (b0 : BState) (a : AstExpr) (p0 : Plan) (m : List (Nat × Nat)),
      b0.err ≠ none → ((rw b0 a p0 m).1).err ≠ none) :
    ∀ (b : BState) (j : AstJoin), b.err ≠ none → (buildNewJoin rw b j).2.err ≠ none
  | b, .mk ltree none onC tp, h => buildResultSetNode_err_sticky rw hrw b ltree h
  | b, .mk ltree (some rt) onC tp, h => by
      have hl := buildResultSetNode_err_sticky rw hrw b ltree h
      have hr := buildResultSetNode_err_sticky rw hrw (buildResultSetNode rw b ltree).2 rt hl
      show (buildNewJoin rw b (.mk ltree (some rt) onC tp)).2.err ≠ none
      simp only [buildNewJoin]
      split
      · rename_i lpv rpv hlb hrb
        have hdc : (deepCopySchema (deepCopySchema
            (buildResultSetNode rw (buildResultSetNode rw b ltree).2 rt).2
            lpv.schema).2 rpv.schema).2.err ≠ none := by
          rw [(deepCopySchema_meta _ _).2, (deepCopySchema_meta _ _).2]
          exact hr
        split
        · split
          · simp
          · split
            · simp
            · exact hrw _ _ _ [] hdc
        · exact hdc
      · exact hr

end

/-- C1 (amended): builder calls never clear the sticky slot: once the
error is recorded it stays non-absent through every later builder call
(its value may be replaced by a later failure); the absent-plan
short-circuit lives in the callers' checks after each sub-build — in
particular the table-source dispatch returns an absent plan whenever
the sticky error is set after building the scan — while a builder
called with the error already set still performs its work. -/
theorem builders_never_clear_sticky_error (rw : Rewriter)
    (hrw : ∀ (b0 : BState) (a : AstExpr) (p0 : Plan) (m : List (Nat × Nat)),
      b0.err ≠ none → ((rw b0 a p0 m).1).err ≠ none)
    (b : BState) (node : ResultSetNode) (h : b.err ≠ none) :
    (buildResultSetNode rw b node).2.err ≠ none ∧
    (∀ t a, node = .tableSource t a → (buildResultSetNode rw b node).1 = none) := by
  refine ⟨buildResultSetNode_err_sticky rw hrw b node h, ?_⟩
  intro t a hnode
  subst hnode
  have hcond : (buildNewTableScanPlan b t).2.err ≠ none := by
    rw [(buildNewTableScanPlan_meta b t).1]
    exact h
  simp only [buildResultSetNode]
  rw [if_pos hcond]

/-- The session with the error already set before any builder call. -/
def c1err : BState := { err := some "boom" }

def uState2err : BState := { uState2 with err := some "boom" }

/-- C1 counterexample: with the sticky error already set, the builder
methods do **not** short-circuit on entry.  The table-source build
allocates an operator id and a schema column (work and schema mutation)
before the caller-side check returns the absent plan; and
`buildNewUnion` — which never consults the slot — returns a *present*
plan. -/
theorem preset_error_counterexample :
    c1err.err = some "boom" ∧ c1err.id = 0 ∧ c1err.cols.length = 0 ∧
    (buildResultSetNode rwTrivial c1err (.tableSource unT1 "")).1 = none ∧
    (buildResultSetNode rwTrivial c1err (.tableSource unT1 "")).2.id = 1 ∧
    (buildResultSetNode rwTrivial c1err (.tableSource unT1 "")).2.cols.length = 1 ∧
    uState2err.err = some "boom" ∧
    ((buildNewUnion rwTrivial uState2err [uScan1, uScan2] false none none).1).isSome = true := by
  refine ⟨by decide, by decide, by decide, rfl, by decide, by decide, by decide, by decide⟩

theorem builders_never_clear_sticky_error_witness :
    ((∀ (b0 : BState) (a : AstExpr) (p0 : Plan) (m : List (Nat × Nat)),
        b0.err ≠ none → ((rwTrivial b0 a p0 m).1).err ≠ none) ∧ c1err.err ≠ none) ∧
    ((buildResultSetNode rwTrivial c1err (.tableSource unT1 "")).2.err ≠ none ∧
      (∀ t a, (.tableSource unT1 "" : ResultSetNode) = .tableSource t a →
        (buildResultSetNode rwTrivial c1err (.tableSource unT1 "")).1 = none)) :=
  ⟨⟨fun b0 a p0 m hh => hh, by decide⟩,
   builders_never_clear_sticky_error rwTrivial (fun b0 a p0 m hh => hh) c1err
     (.tableSource unT1 "") (by decide)⟩

/-! ## Operator id uniqueness (claim C9) -/

mutual

/-- All operator ids in a plan tree, root first (`none` models the Go
zero id `""` of operators that are never assigned one). -/
def Plan.allIds : Plan → List (Option OpId)
  | .newTableScan i _ _ _ => [i]
  | .join i _ _ _ _ _ _ _ cs => i :: allIdsList cs
  | .aggregation i _ _ _ _ cs => i :: allIdsList cs
  | .union i _ _ cs => i :: allIdsList cs
  | .distinct i _ _ cs => i :: allIdsList cs
  | .newSort i _ _ _ cs => i :: allIdsList cs
  | .sort i _ _ _ cs => i :: allIdsList cs
  | .limit i _ _ _ _ cs => i :: allIdsList cs
  | .trim i _ _ cs => i :: allIdsList cs

/-- The ids of a list of children. -/
def allIdsList : List Plan → List (Option OpId)
  | [] => []
  | p :: rest => Plan.allIds p ++ allIdsList rest

end

/-- The counter values of the allocated (non-empty) ids of a tree. -/
def allocNums (p : Plan) : List Nat :=
  (p.allIds.filterMap (fun x => x)).map Prod.snd

theorem allocNums_join_two (jt : JoinTp) (e l r o : List Expr) (c : Bool) (s : List Nat)
    (lp rp : Plan) :
    allocNums (.join none jt e l r o c s [lp, rp]) = allocNums lp ++ allocNums rp := by
  simp [allocNums, Plan.allIds, allIdsList, List.filterMap_append]

/-- The error-overwrite step keeps the id counter. -/
theorem errSet_id (s : BState) (e : String) (c : Bool) :
    (if c = true then { s with err := some e } else s).id = s.id := by
  split_ifs <;> rfl

mutual

theorem buildResultSetNode_id_range (rw : Rewriter)
    (hrw : ∀ (b0 : BState) (a : AstExpr) (p0 : Plan) (m : List (Nat × Nat)),
      b0.id ≤ ((rw b0 a p0 m).1).id) :
    ∀ (b : BState) (node : ResultSetNode),
      b.id ≤ (buildResultSetNode rw b node).2.id ∧
      ∀ p, (buildResultSetNode rw b node).1 = some p →
        (∀ n ∈ allocNums p, b.id < n ∧ n ≤ (buildResultSetNode rw b node).2.id) ∧
        (allocNums p).Nodup
  | b, .joinNode j => buildNewJoin_id_range rw hrw b j
  | b, .tableSource t asName => by
      simp only [buildResultSetNode]
      split
      · refine ⟨?_, fun p hp => Option.noConfusion hp⟩
        rw [(buildNewTableScanPlan_meta b t).2.1]
        omega
      · split
        · refine ⟨?_, ?_⟩
          · rw [(retagAlias_meta _ _ _).1, (buildNewTableScanPlan_meta b t).2.1]
            omega
          · intro p hp
            injection hp with hp
            subst hp
            have hids : allocNums ((buildNewTableScanPlan b t).1.setTableAsName asName)
                = [b.id + 1] := rfl
            rw [hids]
            refine ⟨?_, by simp⟩
            intro n hn
            rw [List.mem_singleton] at hn
            subst hn
            rw [(retagAlias_meta _ _ _).1, (buildNewTableScanPlan_meta b t).2.1]
            omega
        · refine ⟨?_, ?_⟩
          · rw [(buildNewTableScanPlan_meta b t).2.1]
            omega
          · intro p hp
            injection hp with hp
            subst hp
            have hids : allocNums ((buildNewTableScanPlan b t).1.setTableAsName asName)
                = [b.id + 1] := rfl
            rw [hids]
            refine ⟨?_, by simp⟩
            intro n hn
            rw [List.mem_singleton] at hn
            subst hn
            rw [(buildNewTableScanPlan_meta b t).2.1]
            omega
  | b, .unsupportedSource => by
      exact ⟨Nat.le_refl b.id, fun p hp => Option.noConfusion hp⟩

theorem buildNewJoin_id_range (rw : Rewriter)
    (hrw : ∀ (b0 : BState) (a : AstExpr) (p0 : Plan) (m : List (Nat × Nat)),
      b0.id ≤ ((rw b0 a p0 m).1).id) :
    ∀ (b : BState) (j : AstJoin),
      b.id ≤ (buildNewJoin rw b j).2.id ∧
      ∀ p, (buildNewJoin rw b j).1 = some p →
        (∀ n ∈ allocNums p, b.id < n ∧ n ≤ (buildNewJoin rw b j).2.id) ∧
        (allocNums p).Nodup
  | b, .mk ltree none onC tp => buildResultSetNode_id_range rw hrw b ltree
  | b, .mk ltree (some rt) onC tp => by
      have hl := buildResultSetNode_id_range rw hrw b ltree
      have hr := buildResultSetNode_id_range rw hrw (buildResultSetNode rw b ltree).2 rt
      simp only [buildNewJoin]
      split
      · rename_i lpv rpv hlb hrb
        have hbl := hl.2 lpv hlb
        have hbr := hr.2 rpv hrb
        have hdcid : (deepCopySchema (deepCopySchema
            (buildResultSetNode rw (buildResultSetNode rw b ltree).2 rt).2
            lpv.schema).2 rpv.schema).2.id
            = (buildResultSetNode rw (buildResultSetNode rw b ltree).2 rt).2.id := by
          rw [(deepCopySchema_meta _ _).1, (deepCopySchema_meta _ _).1]
        split
        · rename_i onE
          split
          · rename_i e heq
            refine ⟨?_, fun p hp => Option.noConfusion hp⟩
            show b.id ≤ (rw _ onE _ []).1.id
            refine le_trans hl.1 (le_trans hr.1 ?_)
            rw [← hdcid]
            exact hrw _ onE _ []
          · rename_i heq
            have hfin : (buildResultSetNode rw (buildResultSetNode rw b ltree).2 rt).2.id
                ≤ (if (rw (deepCopySchema (deepCopySchema
                    (buildResultSetNode rw (buildResultSetNode rw b ltree).2 rt).2
                    lpv.schema).2 rpv.schema).2 onE
                    (Plan.join none .innerJoin [] [] [] []
                      (lpv.correlated || rpv.correlated)
                      ((deepCopySchema (buildResultSetNode rw
                          (buildResultSetNode rw b ltree).2 rt).2 lpv.schema).1 ++
                        (deepCopySchema (deepCopySchema (buildResultSetNode rw
                          (buildResultSetNode rw b ltree).2 rt).2 lpv.schema).2
                          rpv.schema).1) []) []).2.2.2.1 = true then
                  { (rw (deepCopySchema (deepCopySchema
                      (buildResultSetNode rw (buildResultSetNode rw b ltree).2 rt).2
                      lpv.schema).2 rpv.schema).2 onE
                      (Plan.join none .innerJoin [] [] [] []
                        (lpv.correlated || rpv.correlated)
                        ((deepCopySchema (buildResultSetNode rw
                            (buildResultSetNode rw b ltree).2 rt).2 lpv.schema).1 ++
                          (deepCopySchema (deepCopySchema (buildResultSetNode rw
                            (buildResultSetNode rw b ltree).2 rt).2 lpv.schema).2
                            rpv.schema).1) []) []).1
                    with err := some "On condition does not support subqueries yet." }
                  else (rw (deepCopySchema (deepCopySchema
                    (buildResultSetNode rw (buildResultSetNode rw b ltree).2 rt).2
                    lpv.schema).2 rpv.schema).2 onE
                    (Plan.join none .innerJoin [] [] [] []
                      (lpv.correlated || rpv.correlated)
                      ((deepCopySchema (buildResultSetNode rw
                          (buildResultSetNode rw b ltree).2 rt).2 lpv.schema).1 ++
                        (deepCopySchema (deepCopySchema (buildResultSetNode rw
                          (buildResultSetNode rw b ltree).2 rt).2 lpv.schema).2
                          rpv.schema).1) []) []).1).id := by
              rw [errSet_id]
              rw [← hdcid]
              exact hrw _ onE _ []
            refine ⟨le_trans hl.1 (le_trans hr.1 hfin), ?_⟩
            intro p hp
            injection hp with hp
            subst hp
            rw [allocNums_join_two]
            refine ⟨?_, ?_⟩
            · intro n hn
              rcases List.mem_append.mp hn with hnl | hnr
              · have hb := hbl.1 n hnl
                exact ⟨hb.1, le_trans hb.2 (le_trans hr.1 hfin)⟩
              · have hb := hbr.1 n hnr
                exact ⟨lt_of_le_of_lt hl.1 hb.1, le_trans hb.2 hfin⟩
            · refine List.Nodup.append hbl.2 hbr.2 ?_
              intro n hnl hnr
              have h1 := (hbl.1 n hnl).2
              have h2 := (hbr.1 n hnr).1
              omega
        · refine ⟨le_trans hl.1 (le_trans hr.1 (le_of_eq hdcid.symm)), ?_⟩
          intro p hp
          injection hp with hp
          subst hp
          rw [allocNums_join_two]
          refine ⟨?_, ?_⟩
          · intro n hn
            rcases List.mem_append.mp hn with hnl | hnr
            · have hb := hbl.1 n hnl
              exact ⟨hb.1, le_trans hb.2 (le_trans hr.1 (le_of_eq hdcid.symm))⟩
            · have hb := hbr.1 n hnr
              exact ⟨lt_of_le_of_lt hl.1 hb.1, le_trans hb.2 (le_of_eq hdcid.symm)⟩
          · refine List.Nodup.append hbl.2 hbr.2 ?_
            intro n hnl hnr
            have h1 := (hbl.1 n hnl).2
            have h2 := (hbr.1 n hnr).1
            omega
      · exact ⟨le_trans hl.1 hr.1, fun p hp => Option.noConfusion hp⟩

end

/-- C9 (amended): every id allocated through `allocID` during one
session is stamped with a strictly increased counter value, so within
any plan tree built by `buildResultSetNode` the allocated (non-empty)
operator ids are pairwise distinct.  (`Join` and `Distinct` — and
`Limit` — operators are never assigned an id, so distinct such operators
share the Go zero id; see the counterexample.) -/
theorem allocated_ids_pairwise_distinct (rw : Rewriter)
    (hrw : ∀ (b0 : BState) (a : AstExpr) (p0 : Plan) (m : List (Nat × Nat)),
      b0.id ≤ ((rw b0 a p0 m).1).id)
    (b : BState) (node : ResultSetNode) (p : Plan)
    (h : (buildResultSetNode rw b node).1 = some p) :
    (p.allIds.filterMap (fun x => x)).Nodup :=
  List.Nodup.of_map Prod.snd ((buildResultSetNode_id_range rw hrw b node).2 p h).2

/-- A three-table join `(t1 JOIN t2) JOIN t` — its plan tree holds two
`Join` operators. -/
def c9node : ResultSetNode :=
  .joinNode (.mk
    (.joinNode (.mk (.tableSource unT1 "") (some (.tableSource unT2 "")) none .crossJoin))
    (some (.tableSource tnTwoCols "")) none .crossJoin)

def c9plan : Plan :=
  ((buildResultSetNode rwTrivial {} c9node).1).getD (Plan.newTableScan none none false [])

/-- C9 counterexample: in the three-table join tree both `Join`
operators carry the never-assigned empty id (`none`), so two distinct
operators of the tree share the same id — the full id list is not
duplicate-free. -/
theorem two_joins_share_empty_id_counterexample :
    c9plan.allIds
      = [none, none, some ("*plan.NewTableScan", 1), some ("*plan.NewTableScan", 2),
         some ("*plan.NewTableScan", 3)] ∧
    ¬ c9plan.allIds.Nodup :=
  ⟨rfl, by decide⟩

theorem allocated_ids_pairwise_distinct_witness :
    ((∀ (b0 : BState) (a : AstExpr) (p0 : Plan) (m : List (Nat × Nat)),
        b0.id ≤ ((rwTrivial b0 a p0 m).1).id) ∧
      (buildResultSetNode rwTrivial {} c9node).1 = some c9plan) ∧
    (c9plan.allIds.filterMap (fun x => x)).Nodup :=
  ⟨⟨fun b0 a p0 m => Nat.le_refl b0.id, rfl⟩,
   allocated_ids_pairwise_distinct rwTrivial (fun b0 a p0 m => Nat.le_refl b0.id) {}
     c9node c9plan rfl⟩

end NewPlanBuilder
